import Mathlib

/-!
# Verification of the cucubau-sound hierarchical library store

This file gives a shallow embedding of the core of the cucubau-sound
storage layer (the path resolver, the storage service operations over the
library index and the disk, and the migration folder-map construction),
together with theorems settling the specification claims about it.

Modelling conventions:

* Machine state is passed explicitly: the library index is a `LibraryData`
  value and the disk is a `Disk` value; every operation returns the updated
  state together with its tagged result.
* The source walks `parentId` chains with unbounded `while` loops that
  diverge on cyclic folder lists.  Those walks are embedded with an explicit
  fuel parameter and return `Option` results, `none` meaning the source loop
  would not terminate.  The fuel `folders.length + 1` is proved canonical:
  the walk returns `some` at that fuel exactly when the source loop
  terminates (`PathTo` below).
* JavaScript truthiness is modelled faithfully: a `while (current)` loop
  also exits when `current` is the empty string, and `x || y` falls through
  to `y` when `x` is the empty string.
* Adapter calls that can only fail in ways the service ignores (logged and
  skipped) are applied best-effort: on failure the disk is left unchanged,
  matching the source's `console.error`-and-continue handling.
-/

namespace Cucubau

/-- Folder record from `types.ts`.  Only the fields read by the embedded
operations (`id`, `name`, `parentId`) are modelled; `color`, `createdAt` and
`sortOrder` are never read by any operation verified here. -/
structure Folder where
  id : String
  name : String
  parentId : Option String
deriving Repr, DecidableEq

/-- Recording record from `types.ts`.  Only the fields read by the embedded
operations are modelled: `id`, `filename`, `folderId`, `parentId` (crop
link) and `tabTitle` (display title used for per-folder uniqueness); the
remaining metadata fields are never read by any operation verified here. -/
structure Recording where
  id : String
  filename : String
  folderId : String
  parentId : Option String
  tabTitle : String
deriving Repr, DecidableEq

/-- The error kinds of `StorageError` in `storage/types.ts`. -/
inductive StorageError where
  | NO_FOLDER_SELECTED
  | PERMISSION_DENIED
  | PERMISSION_PROMPT_NEEDED
  | FOLDER_NOT_FOUND (path : String)
  | FILE_NOT_FOUND (filename : String)
  | WRITE_FAILED (reason : String)
  | READ_FAILED (reason : String)
  | DELETE_FAILED (reason : String)
  | INVALID_OPERATION (reason : String)
  | NAME_CONFLICT (existingName : String)
deriving Repr, DecidableEq

/-- The in-memory library index (`LibraryData` in `storage/types.ts`);
`version`, `exportedAt` and `fullPath` carry no behaviour relevant to the
claims and are omitted. -/
structure LibraryData where
  recordings : List Recording
  folders : List Folder
deriving Repr, DecidableEq

/-- `folders.find(f => f.id === id)`. -/
def findFolder (folders : List Folder) (id : String) : Option Folder :=
  folders.find? (fun f => f.id == id)

/-- One step of a parent-chain walk: `parent?.parentId ?? null` after
`parent = folders.find(f => f.id === current)`. -/
def nextParent (folders : List Folder) (current : String) : Option String :=
  match findFolder folders current with
  | some f => f.parentId
  | none => none

/-- JavaScript truthiness of a `string | null` value: `null` and the empty
string are falsy. -/
def strTruthy : Option String → Bool
  | none => false
  | some s => s ≠ ""

/-- The `while (currentId)` loop body of `buildFolderPath` in
`storage/types.ts`, with explicit fuel.  `path` is the accumulator built by
`path.unshift(folder.name)`; `none` means the loop would run out of fuel
(on the source side: diverge). -/
def walkUp (folders : List Folder) : Nat → Option String → List String → Option (List String)
  | fuel, o, path =>
    match o with
    | none => some path
    | some currentId =>
      if currentId = "" then some path
      else
        match fuel with
        | 0 => none
        | fuel + 1 =>
          match findFolder folders currentId with
          | none => some path
          | some folder => walkUp folders fuel folder.parentId (folder.name :: path)

/-- `buildFolderPath(folderId, folders)` from `storage/types.ts`: the early
return for falsy or `"uncategorized"` ids, then the upward walk.  Fuel
`folders.length + 1` is canonical (`walkUp_isSome_iff_pathTo`): the result
is `some p` exactly when the source loop terminates with `p`, and `none`
exactly when it diverges. -/
def buildFolderPath (folderId : Option String) (folders : List Folder) : Option (List String) :=
  match folderId with
  | none => some []
  | some fid =>
    if fid = "" ∨ fid = "uncategorized" then some []
    else walkUp folders (folders.length + 1) (some fid) []

/-- `getRecordingDiskPath(recording, folders)` from `storage/types.ts`. -/
def getRecordingDiskPath (recording : Recording) (folders : List Folder) : Option (List String) :=
  buildFolderPath (some recording.folderId) folders

/-- Big-step characterization of the `buildFolderPath` walk: from a current
pointer `o`, the walk terminates and produces the name sequence `p`
(ordered root-first).  The three stopping rules of the source loop are the
falsy pointer (`root`, `empty`) and the missing folder (`missing`). -/
inductive PathTo (folders : List Folder) : Option String → List String → Prop
  | root : PathTo folders none []
  | empty : PathTo folders (some "") []
  | missing (id : String) : id ≠ "" → findFolder folders id = none →
      PathTo folders (some id) []
  | step (id : String) (f : Folder) (p : List String) : id ≠ "" →
      findFolder folders id = some f → PathTo folders f.parentId p →
      PathTo folders (some id) (p ++ [f.name])

/-- A folder list is acyclic when every parent-chain walk terminates. -/
def Acyclic (folders : List Folder) : Prop :=
  ∀ o : Option String, ∃ p, PathTo folders o p

/-- Depth of a folder whose ancestor chain is intact: the chain of
`parentId` pointers exists all the way up and ends at the root (`null`),
and `n` counts the folders on it (root excluded). -/
inductive DepthTo (folders : List Folder) : Option String → Nat → Prop
  | root : DepthTo folders none 0
  | step (id : String) (f : Folder) (n : Nat) : id ≠ "" →
      findFolder folders id = some f → DepthTo folders f.parentId n →
      DepthTo folders (some id) (n + 1)

/-- Demo fixture: a two-folder tree, `Trap` nested under `Beats`. -/
def beatsFolder : Folder := ⟨"b", "Beats", none⟩

def trapFolder : Folder := ⟨"t", "Trap", some "b"⟩

def demoFolders : List Folder := [beatsFolder, trapFolder]

/-- Cyclic fixture: a single folder that is its own parent. -/
def selfLoopFolder : Folder := ⟨"a", "A", some "a"⟩

/-- C2 counterexample input: a folder whose id is the sentinel string. -/
def sentinelFolder : Folder := ⟨"uncategorized", "U", none⟩

/-- The cycle-check loop of `StorageService.moveFolder`
(`while (current) { if (current === id) reject; current = parent?.parentId ?? null }`),
with explicit fuel.  `some true` means the move is rejected (the id was
encountered), `some false` means the check passes, `none` means the loop
would run out of fuel (on the source side: diverge). -/
def cycleCheck (folders : List Folder) (id : String) : Nat → Option String → Option Bool
  | fuel, o =>
    match o with
    | none => some false
    | some current =>
      if current = "" then some false
      else if current = id then some true
      else
        match fuel with
        | 0 => none
        | fuel + 1 => cycleCheck folders id fuel (nextParent folders current)

/-- The cycle-check walk from `o` encounters `id` after `n` loop steps. -/
inductive HitsIn (folders : List Folder) (id : String) : Option String → Nat → Prop
  | here : id ≠ "" → HitsIn folders id (some id) 0
  | step (c : String) (n : Nat) : c ≠ "" → c ≠ id →
      HitsIn folders id (nextParent folders c) n → HitsIn folders id (some c) (n + 1)

/-- The cycle-check walk from `o` terminates after `n` loop steps without
encountering `id`. -/
inductive MissesIn (folders : List Folder) (id : String) : Option String → Nat → Prop
  | root : MissesIn folders id none 0
  | empty : MissesIn folders id (some "") 0
  | step (c : String) (n : Nat) : c ≠ "" → c ≠ id →
      MissesIn folders id (nextParent folders c) n → MissesIn folders id (some c) (n + 1)

/-- `id` occurs on the parent chain walked upward from `o`. -/
def ChainHits (folders : List Folder) (id : String) (o : Option String) : Prop :=
  ∃ n, HitsIn folders id o n

/-- The parent chain walked upward from `o` terminates without passing
through `id`. -/
def ChainMisses (folders : List Folder) (id : String) (o : Option String) : Prop :=
  ∃ n, MissesIn folders id o n

/-- `folder.parentId = newParentId` applied to the folder object returned by
`folders.find(f => f.id === id)`: the first folder with that id is updated
in place. -/
def setParent (folders : List Folder) (id : String) (newParentId : Option String) : List Folder :=
  match folders with
  | [] => []
  | f :: rest =>
    if f.id = id then { f with parentId := newParentId } :: rest
    else f :: setParent rest id newParentId

/-- Folder `fid` is its own (proper) ancestor: the chain walked upward from
its `parentId` passes through `fid` again. -/
def SelfAncestor (folders : List Folder) (fid : String) : Prop :=
  ChainHits folders fid (nextParent folders fid)

/-- File contents (the WAV bytes), abstracted as a byte list. -/
abbrev Blob := List Nat

/-- The state of the managed directory tree under the selected root, as the
`FileSystemStorage` adapter observes it: the set of existing directories
(as paths of names, the root itself always existing) and the existing files
(directory path, filename, contents). -/
structure Disk where
  dirs : List (List String)
  files : List (List String × String × Blob)
deriving Repr, DecidableEq

/-- `getDirectory(path, create = false)` succeeds: the root always exists,
any other directory must have been created. -/
def dirExists (d : Disk) (path : List String) : Bool :=
  path.isEmpty || d.dirs.contains path

/-- Lookup of a directory entry for `filename` inside `path`. -/
def findFile (d : Disk) (path : List String) (name : String) : Option Blob :=
  (d.files.find? (fun e => e.1 == path && e.2.1 == name)).map (fun e => e.2.2)

/-- `FileSystemStorage.fileExists(dirPath, filename)`: resolve the
directory, then the file handle; any failure yields `false`. -/
def fileExistsD (d : Disk) (path : List String) (name : String) : Bool :=
  dirExists d path && (findFile d path name).isSome

/-- `FileSystemStorage.readFile(dirPath, filename)`: a missing directory is
`FOLDER_NOT_FOUND`, a missing file `FILE_NOT_FOUND`, otherwise the
contents. -/
def readFileD (d : Disk) (path : List String) (name : String) : Except StorageError Blob :=
  if dirExists d path then
    match findFile d path name with
    | some b => Except.ok b
    | none => Except.error (StorageError.FILE_NOT_FOUND name)
  else Except.error (StorageError.FOLDER_NOT_FOUND (String.intercalate "/" path))

/-- `FileSystemStorage.deleteFile(dirPath, filename)`: a missing directory
is `FOLDER_NOT_FOUND`; with the directory present, removing the entry is
idempotent (`NotFoundError` is swallowed as success). -/
def deleteFileD (d : Disk) (path : List String) (name : String) : Except StorageError Disk :=
  if dirExists d path then
    Except.ok { d with files := d.files.filter (fun e => !(e.1 == path && e.2.1 == name)) }
  else Except.error (StorageError.FOLDER_NOT_FOUND (String.intercalate "/" path))

/-- `getOrCreateDirectory(path)`: walking the path with `create = true`
creates every directory along it. -/
def getOrCreateDirectoryD (d : Disk) (path : List String) : Disk :=
  { d with dirs := d.dirs ++ (List.range path.length).map (fun i => path.take (i + 1)) }

/-- `FileSystemStorage.writeFile(dirPath, filename, blob)`: create the
directory chain, then create or replace the file.  Write failures other
than the modelled ones are abstracted as success. -/
def writeFileD (d : Disk) (path : List String) (name : String) (b : Blob) : Disk :=
  let d1 := getOrCreateDirectoryD d path
  { d1 with files := (path, name, b) :: d1.files.filter (fun e => !(e.1 == path && e.2.1 == name)) }

/-- `FileSystemStorage.moveFile(fromPath, filename, toPath)`: read, write to
the new location, delete the old copy. -/
def moveFileD (d : Disk) (fromPath : List String) (filename : String) (toPath : List String) :
    Except StorageError Disk :=
  match readFileD d fromPath filename with
  | Except.error e => Except.error e
  | Except.ok blob => deleteFileD (writeFileD d toPath filename blob) fromPath filename

/-- Relocation of one path under a moved directory. -/
def replacePrefix (fromPath toBase p : List String) : List String :=
  if fromPath.isPrefixOf p then toBase ++ p.drop fromPath.length else p

/-- `FileSystemStorage.moveDirectory(fromPath, toParentPath)`: resolve the
source (missing source is `FOLDER_NOT_FOUND`, the root cannot be moved),
create the destination chain, recursively copy all contents, then remove
the source subtree.  The net effect relocates every directory and file
under `fromPath` below `toParentPath ++ [last component]`. -/
def moveDirectoryD (d : Disk) (fromPath toParentPath : List String) :
    Except StorageError Disk :=
  match fromPath.getLast? with
  | none => Except.error (StorageError.INVALID_OPERATION "Cannot move root directory")
  | some dirName =>
    if dirExists d fromPath then
      let toBase := toParentPath ++ [dirName]
      let d1 := getOrCreateDirectoryD (getOrCreateDirectoryD d toParentPath) toBase
      Except.ok { dirs := d1.dirs.map (replacePrefix fromPath toBase),
                  files := d1.files.map (fun e => (replacePrefix fromPath toBase e.1, e.2)) }
    else Except.error (StorageError.FOLDER_NOT_FOUND (String.intercalate "/" fromPath))

/-- `FileSystemStorage.deleteDirectory(path, recursive = true)`: the root
cannot be deleted, a missing parent is `FOLDER_NOT_FOUND`, a missing target
makes `removeEntry` throw (`DELETE_FAILED`), otherwise the whole subtree is
removed. -/
def deleteDirectoryD (d : Disk) (path : List String) : Except StorageError Disk :=
  match path.getLast? with
  | none => Except.error (StorageError.INVALID_OPERATION "Cannot delete root directory")
  | some _ =>
    if dirExists d path.dropLast then
      if d.dirs.contains path then
        Except.ok { dirs := d.dirs.filter (fun q => !(path.isPrefixOf q)),
                    files := d.files.filter (fun e => !(path.isPrefixOf e.1)) }
      else Except.error (StorageError.DELETE_FAILED "NotFoundError")
    else Except.error (StorageError.FOLDER_NOT_FOUND (String.intercalate "/" path.dropLast))

/-- Best-effort application of an adapter result whose failure the service
only logs (`console.error`) and otherwise ignores. -/
def bestEffort (d : Disk) (r : Except StorageError Disk) : Disk :=
  match r with
  | Except.ok d2 => d2
  | Except.error _ => d

/-- `StorageService.moveFolder(id, newParentId)`: look up the folder
(`FOLDER_NOT_FOUND` if absent), run the cycle check (`INVALID_OPERATION` on
a hit), compute both paths, move the directory on disk (failure aborts
without touching the index), then update the folder's `parentId` and
persist.  `none` means a source parent-chain walk diverges. -/
def moveFolder (lib : LibraryData) (disk : Disk) (id : String) (newParentId : Option String) :
    Option (Except StorageError Unit × LibraryData × Disk) :=
  match findFolder lib.folders id with
  | none => some (Except.error (StorageError.FOLDER_NOT_FOUND id), lib, disk)
  | some _ =>
    match cycleCheck lib.folders id (lib.folders.length + 1) newParentId with
    | none => none
    | some true =>
      some (Except.error
        (StorageError.INVALID_OPERATION "Cannot move folder into itself or descendant"), lib, disk)
    | some false =>
      match buildFolderPath (some id) lib.folders, buildFolderPath newParentId lib.folders with
      | some oldPath, some newParentPath =>
        match moveDirectoryD disk oldPath newParentPath with
        | Except.error e => some (Except.error e, lib, disk)
        | Except.ok disk1 =>
          some (Except.ok (), { lib with folders := setParent lib.folders id newParentId }, disk1)
      | _, _ => none

/-- C1 counterexample input: a single folder whose `parentId` dangles at the
nonexistent id `"A"`. -/
def danglingFolder : Folder := ⟨"B", "B", some "A"⟩

def danglingLib : LibraryData := ⟨[], [danglingFolder]⟩

def emptyDisk : Disk := ⟨[], []⟩

def demoLib : LibraryData := ⟨[], demoFolders⟩

def demoDisk : Disk := ⟨[["Beats"], ["Beats", "Trap"]], []⟩

/-- The de-duplication loop of `StorageService.initialize` (on load) and
`StorageService.updateRecordings` (on bulk replace): walk the list keeping a
set of seen ids, keep a recording only when its id is new. -/
def dedupAux (seen : List String) : List Recording → List Recording
  | [] => []
  | r :: rest =>
    if r.id ∈ seen then dedupAux seen rest
    else r :: dedupAux (r.id :: seen) rest

/-- De-duplication by id with an initially empty seen set, as both call
sites run it. -/
def dedupRecordings (recs : List Recording) : List Recording :=
  dedupAux [] recs

/-- `StorageService.updateRecordings(recordings)`: bulk replace after
de-duplication (the index write is abstracted as succeeding). -/
def updateRecordings (lib : LibraryData) (recs : List Recording) : LibraryData :=
  { lib with recordings := dedupRecordings recs }

/-- Demo recordings: two distinct ids with a later duplicate of the first. -/
def recA : Recording := ⟨"r1", "a.wav", "uncategorized", none, "A"⟩

def recB : Recording := ⟨"r2", "b.wav", "t", none, "B"⟩

def recAdup : Recording := ⟨"r1", "c.wav", "b", none, "C"⟩

/-- The folder-scan of the blob-read fallback (`getRecordingBlob`): try to
read the file from each known folder's directory in list order; inner
`none` means the scan was exhausted.  Outer `none` propagates a diverging
path walk. -/
def scanFoldersRead (disk : Disk) (allFolders : List Folder) (filename : String) :
    List Folder → Option (Option Blob)
  | [] => some none
  | f :: rest =>
    match buildFolderPath (some f.id) allFolders with
    | none => none
    | some fp =>
      match readFileD disk fp filename with
      | Except.ok b => some (some b)
      | Except.error _ => scanFoldersRead disk allFolders filename rest

/-- `StorageService.getRecordingBlob(id)`: expected path first, then the
root, then every known folder's directory; `FILE_NOT_FOUND` only when all
are exhausted. -/
def getRecordingBlob (lib : LibraryData) (disk : Disk) (id : String) :
    Option (Except StorageError Blob) :=
  match lib.recordings.find? (fun r => r.id == id) with
  | none => some (Except.error (StorageError.FILE_NOT_FOUND id))
  | some recording =>
    match getRecordingDiskPath recording lib.folders with
    | none => none
    | some diskPath =>
      match readFileD disk diskPath recording.filename with
      | Except.ok b => some (Except.ok b)
      | Except.error _ =>
        match readFileD disk [] recording.filename with
        | Except.ok b => some (Except.ok b)
        | Except.error _ =>
          match scanFoldersRead disk lib.folders recording.filename lib.folders with
          | none => none
          | some (some b) => some (Except.ok b)
          | some none => some (Except.error (StorageError.FILE_NOT_FOUND recording.filename))

/-- The folder-scan of the existence fallback (`deleteRecordingFile` and
`moveRecording`): return the first known folder's directory containing the
file. -/
def scanFoldersExists (disk : Disk) (allFolders : List Folder) (filename : String) :
    List Folder → Option (Option (List String))
  | [] => some none
  | f :: rest =>
    match buildFolderPath (some f.id) allFolders with
    | none => none
    | some fp =>
      if fileExistsD disk fp filename then some (some fp)
      else scanFoldersExists disk allFolders filename rest

/-- The existence fallback search shared by `deleteRecordingFile` and
`moveRecording` (the source inlines the same logic in both): expected path,
then root, then every known folder's directory; inner `none` means the file
exists nowhere. -/
def findActualPath (lib : LibraryData) (disk : Disk) (recording : Recording) :
    Option (Option (List String)) :=
  match getRecordingDiskPath recording lib.folders with
  | none => none
  | some diskPath =>
    if fileExistsD disk diskPath recording.filename then some (some diskPath)
    else if fileExistsD disk [] recording.filename then some (some [])
    else scanFoldersExists disk lib.folders recording.filename lib.folders

/-- `StorageService.deleteRecordingFile(recording)`: fallback search, then
best-effort deletion of the file where found; a file found nowhere is left
alone (not an error). -/
def deleteRecordingFileD (lib : LibraryData) (disk : Disk) (recording : Recording) :
    Option Disk :=
  match findActualPath lib disk recording with
  | none => none
  | some none => some disk
  | some (some p) => some (bestEffort disk (deleteFileD disk p recording.filename))

/-- The crop loop of `deleteRecording(id, deleteChildren = true)`: delete
each crop's file in turn (each search runs against the same library). -/
def deleteCropFiles (lib : LibraryData) : Disk → List Recording → Option Disk
  | disk, [] => some disk
  | disk, c :: rest =>
    match deleteRecordingFileD lib disk c with
    | none => none
    | some disk2 => deleteCropFiles lib disk2 rest

/-- `StorageService.deleteRecording(id, deleteChildren)`: look the recording
up (`FILE_NOT_FOUND` if absent), best-effort delete its file, collect the
crops (`parentId === id`); with `deleteChildren` also delete the crops'
files and drop the recording together with its crops in one index update,
otherwise drop only the recording (the crops' records, `parentId`
included, are left as they are). -/
def deleteRecording (lib : LibraryData) (disk : Disk) (id : String) (deleteChildren : Bool) :
    Option (Except StorageError Unit × LibraryData × Disk) :=
  match lib.recordings.find? (fun r => r.id == id) with
  | none => some (Except.error (StorageError.FILE_NOT_FOUND id), lib, disk)
  | some recording =>
    match deleteRecordingFileD lib disk recording with
    | none => none
    | some disk1 =>
      let crops := lib.recordings.filter (fun r => r.parentId == some id)
      if deleteChildren then
        match deleteCropFiles lib disk1 crops with
        | none => none
        | some disk2 =>
          let idsToRemove := id :: crops.map Recording.id
          some (Except.ok (),
            { lib with recordings :=
                lib.recordings.filter (fun r => !(idsToRemove.contains r.id)) }, disk2)
      else
        some (Except.ok (),
          { lib with recordings := lib.recordings.filter (fun r => r.id != id) }, disk1)

/-- `if (recording.parentId) { delete recording.parentId }`: the crop link
is removed only when truthy (a non-empty string). -/
def clearParentTruthy (r : Recording) : Recording :=
  if strTruthy r.parentId then { r with parentId := none } else r

/-- In-place update of the recording object found by
`recordings.find(r => r.id === id)`: the first recording with that id is
replaced. -/
def setRecording (recs : List Recording) (id : String) (r2 : Recording) : List Recording :=
  match recs with
  | [] => []
  | r :: rest => if r.id = id then r2 :: rest else r :: setRecording rest id r2

/-- The destination-conflict predicate of `moveRecording`: some other
recording already sits in the destination folder with the same display
title. -/
def conflictPred (id newFolderId title : String) (r : Recording) : Bool :=
  r.id != id && r.folderId == newFolderId && r.tabTitle == title

/-- `StorageService.moveRecording(id, newFolderId)`: look the recording up,
reject on a destination title conflict, locate the file by the fallback
search; if the file exists nowhere update only the metadata, otherwise move
the file then update the metadata (clearing a truthy crop link either
way). -/
def moveRecording (lib : LibraryData) (disk : Disk) (id newFolderId : String) :
    Option (Except StorageError Recording × LibraryData × Disk) :=
  match lib.recordings.find? (fun r => r.id == id) with
  | none => some (Except.error (StorageError.FILE_NOT_FOUND id), lib, disk)
  | some recording =>
    match lib.recordings.find? (conflictPred id newFolderId recording.tabTitle) with
    | some _ => some (Except.error (StorageError.NAME_CONFLICT recording.tabTitle), lib, disk)
    | none =>
      match buildFolderPath (some newFolderId) lib.folders with
      | none => none
      | some newPath =>
        match findActualPath lib disk recording with
        | none => none
        | some none =>
          let updated := clearParentTruthy { recording with folderId := newFolderId }
          some (Except.ok updated,
            { lib with recordings := setRecording lib.recordings id updated }, disk)
        | some (some actualOldPath) =>
          match moveFileD disk actualOldPath recording.filename newPath with
          | Except.error e => some (Except.error e, lib, disk)
          | Except.ok disk1 =>
            let updated := clearParentTruthy { recording with folderId := newFolderId }
            some (Except.ok updated,
              { lib with recordings := setRecording lib.recordings id updated }, disk1)

/-- `StorageService.moveRecordingWithRename(id, newFolderId, newTitle)`:
like `moveRecording` but the conflict check uses `newTitle`, the title is
changed in the same update, and the file is moved from its expected path
only — no fallback search. -/
def moveRecordingWithRename (lib : LibraryData) (disk : Disk) (id newFolderId newTitle : String) :
    Option (Except StorageError Recording × LibraryData × Disk) :=
  match lib.recordings.find? (fun r => r.id == id) with
  | none => some (Except.error (StorageError.FILE_NOT_FOUND id), lib, disk)
  | some recording =>
    match lib.recordings.find? (conflictPred id newFolderId newTitle) with
    | some _ => some (Except.error (StorageError.NAME_CONFLICT newTitle), lib, disk)
    | none =>
      match getRecordingDiskPath recording lib.folders,
            buildFolderPath (some newFolderId) lib.folders with
      | some oldPath, some newPath =>
        match moveFileD disk oldPath recording.filename newPath with
        | Except.error e => some (Except.error e, lib, disk)
        | Except.ok disk1 =>
          let updated := clearParentTruthy
            { recording with folderId := newFolderId, tabTitle := newTitle }
          some (Except.ok updated,
            { lib with recordings := setRecording lib.recordings id updated }, disk1)
      | _, _ => none

/-- Specified probe order, folder part: the directory of every known folder
in the order of the folder list. -/
def folderPathsList (folders : List Folder) : List Folder → Option (List (List String))
  | [] => some []
  | f :: rest =>
    match buildFolderPath (some f.id) folders, folderPathsList folders rest with
    | some p, some ps => some (p :: ps)
    | _, _ => none

/-- Specified probe order of the fallback search: first the expected
location `recordingPath(recording, folders)`, then the root directory, then
every known folder's directory in folder-list order. -/
def probeLocations (lib : LibraryData) (recording : Recording) :
    Option (List (List String)) :=
  match getRecordingDiskPath recording lib.folders, folderPathsList lib.folders lib.folders with
  | some expected, some ps => some (expected :: [] :: ps)
  | _, _ => none

/-- First successful read along a probe sequence. -/
def firstReadHit (disk : Disk) (filename : String) : List (List String) → Option Blob
  | [] => none
  | p :: rest =>
    match readFileD disk p filename with
    | Except.ok b => some b
    | Except.error _ => firstReadHit disk filename rest

/-- First location along a probe sequence where the file exists. -/
def firstExistsHit (disk : Disk) (filename : String) : List (List String) → Option (List String)
  | [] => none
  | p :: rest =>
    if fileExistsD disk p filename then some p else firstExistsHit disk filename rest

def driftDisk : Disk := ⟨[], [([], "b.wav", [1, 2])]⟩

def demoLibB : LibraryData := ⟨[recB], demoFolders⟩

def recP : Recording := ⟨"p", "p.wav", "uncategorized", none, "P"⟩

def recC : Recording := ⟨"c", "c.wav", "uncategorized", some "p", "C"⟩

def libPC : LibraryData := ⟨[recP, recC], []⟩

def recE : Recording := ⟨"e", "e.wav", "uncategorized", some "", "E"⟩

def recF : Recording := ⟨"f", "f.wav", "uncategorized", none, "F"⟩

def recG : Recording := ⟨"g", "g.wav", "t", none, "T"⟩

def recH : Recording := ⟨"h", "h.wav", "t", none, "T"⟩

def renameDisk : Disk := ⟨[["Beats"], ["Beats", "Trap"]], [(["Beats", "Trap"], "g.wav", [7])]⟩

def libGH : LibraryData := ⟨[recG, recH], demoFolders⟩

/-- `folder.parentId || 'uncategorized'`: JavaScript `||` falls through on
`null` and on the empty string. -/
def orUncategorized (parentId : Option String) : String :=
  match parentId with
  | none => "uncategorized"
  | some p => if p = "" then "uncategorized" else p

/-- The file-relocation loop of `deleteFolder(id, deleteChildren = false)`:
move every contained recording's file to the parent directory,
best-effort. -/
def moveRecFiles (folderPath parentPath : List String) : Disk → List Recording → Disk
  | disk, [] => disk
  | disk, rec :: rest =>
    moveRecFiles folderPath parentPath
      (bestEffort disk (moveFileD disk folderPath rec.filename parentPath)) rest

/-- The child-folder loop of `deleteFolder(id, deleteChildren = false)`:
for each direct child, move its directory to the parent (best-effort) and
re-point its `parentId`; each child's path is computed against the current
folder list. -/
def moveChildFolders (parentPath : List String) (pid : Option String) :
    LibraryData → Disk → List Folder → Option (LibraryData × Disk)
  | lib, disk, [] => some (lib, disk)
  | lib, disk, c :: rest =>
    match buildFolderPath (some c.id) lib.folders with
    | none => none
    | some childPath =>
      moveChildFolders parentPath pid
        { lib with folders := setParent lib.folders c.id pid }
        (bestEffort disk (moveDirectoryD disk childPath parentPath)) rest

/-- The recording loop of `deleteFolder(id, deleteChildren = true)`: delete
each contained recording (with its crops) through `deleteRecording`,
ignoring individual results. -/
def deleteRecsLoop : LibraryData → Disk → List Recording → Option (LibraryData × Disk)
  | lib, disk, [] => some (lib, disk)
  | lib, disk, r :: rest =>
    match deleteRecording lib disk r.id true with
    | none => none
    | some (_, lib2, disk2) => deleteRecsLoop lib2 disk2 rest

mutual
/-- `StorageService.deleteFolder(id, deleteChildren)`.  With
`deleteChildren` it recursively deletes every direct child folder, then
every contained recording with its crops, then the directory; otherwise it
moves contained recordings and child folders to the parent.  Either way the
folder itself is removed from the index last.  The recursion is fuelled:
`none` means the source would not terminate (cyclic folder graph). -/
def deleteFolder (fuel : Nat) (lib : LibraryData) (disk : Disk) (id : String)
    (deleteChildren : Bool) :
    Option (Except StorageError Unit × LibraryData × Disk) :=
  match fuel with
  | 0 => none
  | fuel2 + 1 =>
    match findFolder lib.folders id with
    | none => some (Except.error (StorageError.FOLDER_NOT_FOUND id), lib, disk)
    | some folder =>
      match buildFolderPath (some id) lib.folders with
      | none => none
      | some folderPath =>
        if deleteChildren then
          match deleteChildFolders fuel2 lib disk
              (lib.folders.filter (fun f => f.parentId == some id)) with
          | none => none
          | some (lib1, disk1) =>
            match deleteRecsLoop lib1 disk1
                (lib.recordings.filter (fun r => r.folderId == id)) with
            | none => none
            | some (lib2, disk2) =>
              some (Except.ok (),
                { lib2 with folders := lib2.folders.filter (fun f => f.id != id) },
                bestEffort disk2 (deleteDirectoryD disk2 folderPath))
        else
          match moveChildFolders folderPath.dropLast folder.parentId
              { lib with recordings := lib.recordings.map (fun r =>
                  if r.folderId == id
                  then { r with folderId := orUncategorized folder.parentId } else r) }
              (moveRecFiles folderPath folderPath.dropLast disk
                (lib.recordings.filter (fun r => r.folderId == id)))
              (lib.folders.filter (fun f => f.parentId == some id)) with
          | none => none
          | some (lib2, disk2) =>
            some (Except.ok (),
              { lib2 with folders := lib2.folders.filter (fun f => f.id != id) },
              bestEffort disk2 (deleteDirectoryD disk2 folderPath))
termination_by (fuel, 0)

/-- The child-folder loop of `deleteFolder(id, deleteChildren = true)`:
recursively delete each direct child, ignoring individual results. -/
def deleteChildFolders (fuel : Nat) (lib : LibraryData) (disk : Disk) (cs : List Folder) :
    Option (LibraryData × Disk) :=
  match cs with
  | [] => some (lib, disk)
  | c :: rest =>
    match deleteFolder fuel lib disk c.id true with
    | none => none
    | some (_, lib2, disk2) => deleteChildFolders fuel lib2 disk2 rest
termination_by (fuel, cs.length + 1)
end

/-- Well-formedness invariants of the folder list as the app maintains
them: ids unique, no cycles, ids non-empty (they are generated UUIDs). -/
def WFFolders (folders : List Folder) : Prop :=
  (folders.map Folder.id).Nodup ∧ Acyclic folders ∧ ∀ f ∈ folders, f.id ≠ ""

/-- Fixture for the parent-id corner of folder deletion: a folder whose
stored parent id is the empty string (a dangling, non-null parent). -/
def hollowFolder : Folder := ⟨"d", "D", some ""⟩

/-- A recording filed under the hollow folder. -/
def recDel : Recording := ⟨"rd", "d.wav", "d", none, "D"⟩

/-- A recording whose folderId chain is inside the demo subtree
(`t` under `b`). -/
def recT : Recording := ⟨"rt", "rt.wav", "t", none, "RT"⟩

/-- `getPath(folder, folders)` from `MigrationService.buildFolderIdMap`:
the folder's own name prefixed by the parent names collected upward, joined
with `"/"`.  The `while (currentId)` walk of the source is character for
character the `buildFolderPath` loop (falsy pointer or missing parent stops
it), so it is embedded with the same fuelled `walkUp`; `none` means the
source loop would diverge. -/
def getPath (folder : Folder) (folders : List Folder) (fuel : Nat) : Option String :=
  (walkUp folders fuel folder.parentId [folder.name]).map (String.intercalate "/")

/-- `Map.set` of a JavaScript `Map`, seen as an association list in
insertion order: update in place when the key exists, append otherwise. -/
def jsMapSet : List (String × String) → String → String → List (String × String)
  | [], k, v => [(k, v)]
  | (k0, v0) :: rest, k, v =>
    if k0 = k then (k0, v) :: rest else (k0, v0) :: jsMapSet rest k v

/-- `Map.get` of a JavaScript `Map`: the value stored at the key, if
any. -/
def jsMapGet (m : List (String × String)) (k : String) : Option String :=
  (m.find? (fun q => q.1 == k)).map Prod.snd

/-- The first loop of `buildFolderIdMap`: `newPathMap.set(getPath(folder,
newFolders), folder.id)` for each new folder in order. -/
def newPathMapLoop (all : List Folder) (fuel : Nat) :
    List (String × String) → List Folder → Option (List (String × String))
  | m, [] => some m
  | m, f :: rest =>
    match getPath f all fuel with
    | none => none
    | some p => newPathMapLoop all fuel (jsMapSet m p f.id) rest

/-- The second loop of `buildFolderIdMap`: look each old folder's path up
in the new-path map and record `old.id -> newId` when the result is truthy
(`if (newId)` skips both a missing entry and an empty-string id). -/
def folderIdMapLoop (allOld : List Folder) (fuel : Nat) (npm : List (String × String)) :
    List (String × String) → List Folder → Option (List (String × String))
  | m, [] => some m
  | m, of :: rest =>
    match getPath of allOld fuel with
    | none => none
    | some p =>
      match jsMapGet npm p with
      | none => folderIdMapLoop allOld fuel npm m rest
      | some newId =>
        if newId = "" then folderIdMapLoop allOld fuel npm m rest
        else folderIdMapLoop allOld fuel npm (jsMapSet m of.id newId) rest

/-- `MigrationService.buildFolderIdMap(oldFolders, newFolders)`. -/
def buildFolderIdMap (oldFolders newFolders : List Folder) (fuel : Nat) :
    Option (List (String × String)) :=
  match newPathMapLoop newFolders fuel [] newFolders with
  | none => none
  | some npm => folderIdMapLoop oldFolders fuel npm [] oldFolders

/-- The folder-id remap of `MigrationService.migrate` for one legacy
recording: the sentinel maps to itself, anything else through the map with
`folderIdMap.get(rec.folderId) || 'uncategorized'` (a missing entry - or an
empty-string mapped id, by `||`-truthiness - becomes the sentinel). -/
def remapFolderId (m : List (String × String)) (fid : String) : String :=
  if fid = "uncategorized" then "uncategorized"
  else
    match jsMapGet m fid with
    | none => "uncategorized"
    | some nid => if nid = "" then "uncategorized" else nid

/-- The recording loop of `MigrationService.migrate`: the list of new
recording records handed to `saveRecording`, in order.  A recording whose
blob is absent in the legacy blob store is skipped (`continue`); otherwise
the recording is carried over with its `folderId` remapped.  The blob
transcoding and filename normalization do not touch `id` or `folderId` and
are not modelled. -/
def migrateRecordings (m : List (String × String)) (blobs : String → Option Blob) :
    List Recording → List Recording
  | [] => []
  | rec :: rest =>
    match blobs rec.id with
    | none => migrateRecordings m blobs rest
    | some _ =>
      { rec with folderId := remapFolderId m rec.folderId } ::
        migrateRecordings m blobs rest

/-- Legacy-side migration fixtures: an old root folder and a subfolder,
their freshly created counterparts (new ids, same names), a recording
whose blob survived and one whose blob is gone. -/
def oldRootFolder : Folder := ⟨"o1", "A", none⟩

/-- Legacy subfolder under the legacy root. -/
def oldSubFolder : Folder := ⟨"o2", "B", some "o1"⟩

/-- Freshly created root folder (new id, same name). -/
def newRootFolder : Folder := ⟨"n1", "A", none⟩

/-- Freshly created subfolder (new id, same name path). -/
def newSubFolder : Folder := ⟨"n2", "B", some "n1"⟩

/-- A legacy recording whose blob is present in the legacy blob store. -/
def migRecKept : Recording := ⟨"r1", "r1.wav", "o2", none, "R1"⟩

/-- A legacy recording whose blob is absent from the legacy blob store. -/
def migRecLost : Recording := ⟨"r2", "r2.wav", "o2", none, "R2"⟩

/-- The legacy blob store of the migration fixtures. -/
def migBlobs : String → Option Blob := fun rid => if rid = "r1" then some [1] else none

/-- The walk relation is deterministic. -/
theorem pathTo_unique {folders : List Folder} {o : Option String} {p q : List String}
    (hp : PathTo folders o p) (hq : PathTo folders o q) : p = q := by
  induction hp generalizing q with
  | root => cases hq; rfl
  | empty => cases hq <;> simp_all
  | missing id hne hfind => cases hq <;> simp_all
  | step id f p hne hfind hrec ih =>
    cases hq with
    | empty => simp_all
    | missing _ hne2 hfind2 => rw [hfind] at hfind2; cases hfind2
    | step _ g q hne2 hfind2 hrec2 =>
      rw [hfind] at hfind2
      cases hfind2
      rw [ih hrec2]

/-- Successful walks compute exactly the `PathTo` relation (completeness
direction: enough fuel yields the relational path). -/
theorem walkUp_sound {folders : List Folder} {fuel : Nat} {o : Option String}
    {acc r : List String} (h : walkUp folders fuel o acc = some r) :
    ∃ p, PathTo folders o p ∧ r = p ++ acc := by
  induction fuel generalizing o acc with
  | zero =>
    match o with
    | none =>
      simp only [walkUp] at h
      exact ⟨[], PathTo.root, by simpa using h.symm⟩
    | some currentId =>
      by_cases hc : currentId = ""
      · subst hc
        simp only [walkUp, if_pos rfl] at h
        exact ⟨[], PathTo.empty, by simpa using h.symm⟩
      · simp only [walkUp, if_neg hc] at h
        exact Option.noConfusion h
  | succ fuel ih =>
    match o with
    | none =>
      simp only [walkUp] at h
      exact ⟨[], PathTo.root, by simpa using h.symm⟩
    | some currentId =>
      by_cases hc : currentId = ""
      · subst hc
        simp only [walkUp, if_pos rfl] at h
        exact ⟨[], PathTo.empty, by simpa using h.symm⟩
      · simp only [walkUp, if_neg hc] at h
        match hfind : findFolder folders currentId with
        | none =>
          rw [hfind] at h
          exact ⟨[], PathTo.missing currentId hc hfind, by simpa using h.symm⟩
        | some folder =>
          rw [hfind] at h
          obtain ⟨p, hp, hr⟩ := ih h
          refine ⟨p ++ [folder.name], PathTo.step currentId folder p hc hfind hp, ?_⟩
          simp [hr]

/-- Fuel monotonicity supplement: given the relational path, any fuel of at
least `p.length + 1` makes the walk succeed with that path appended to the
accumulator. -/
theorem walkUp_complete {folders : List Folder} {o : Option String} {p : List String}
    (hp : PathTo folders o p) :
    ∀ acc fuel, p.length + 1 ≤ fuel → walkUp folders fuel o acc = some (p ++ acc) := by
  induction hp with
  | root => intro acc fuel _; cases fuel <;> simp [walkUp]
  | empty => intro acc fuel _; cases fuel <;> simp [walkUp]
  | missing id hne hfind =>
    intro acc fuel hfuel
    match fuel, hfuel with
    | fuel + 1, _ => simp [walkUp, hne, hfind]
  | step id f p hne hfind hrec ih =>
    intro acc fuel hfuel
    match fuel, hfuel with
    | fuel + 1, hfuel =>
      have hfuel2 : p.length + 1 ≤ fuel := by
        simp only [List.length_append, List.length_cons, List.length_nil] at hfuel
        omega
      simp only [walkUp, if_neg hne, hfind]
      rw [ih (f.name :: acc) fuel hfuel2]
      simp

/-- A folder found by id is in the list and has that id. -/
theorem findFolder_some_mem {folders : List Folder} {id : String} {f : Folder}
    (h : findFolder folders id = some f) : f ∈ folders ∧ f.id = id := by
  unfold findFolder at h
  refine ⟨List.mem_of_find?_eq_some h, ?_⟩
  have := List.find?_some h
  simpa using this

/-- Bookkeeping for the pigeonhole bound: a terminating walk of result `p`
visits `p.length` pairwise-distinct folder ids, all of them ids of folders
in the list. -/
theorem pathTo_visited {folders : List Folder} {o : Option String} {p : List String}
    (hp : PathTo folders o p) :
    ∃ ids : List String, ids.length = p.length ∧ ids.Nodup ∧
      (∀ x ∈ ids, x ∈ folders.map Folder.id) ∧
      (∀ x ∈ ids, ∃ q, PathTo folders (some x) q ∧ q.length ≤ p.length) := by
  induction hp with
  | root => exact ⟨[], by simp⟩
  | empty => exact ⟨[], by simp⟩
  | missing id hne hfind => exact ⟨[], by simp⟩
  | step id f p hne hfind hrec ih =>
    obtain ⟨ids, hlen, hnd, hmem, hvis⟩ := ih
    have hstep : PathTo folders (some id) (p ++ [f.name]) := PathTo.step id f p hne hfind hrec
    have hid_not : id ∉ ids := by
      intro hin
      obtain ⟨q, hq, hqlen⟩ := hvis id hin
      have : q = p ++ [f.name] := pathTo_unique hq hstep
      subst this
      simp at hqlen
    refine ⟨id :: ids, by simp [hlen], List.nodup_cons.mpr ⟨hid_not, hnd⟩, ?_, ?_⟩
    · intro x hx
      rcases List.mem_cons.mp hx with h | h
      · subst h
        obtain ⟨hfm, hfid⟩ := findFolder_some_mem hfind
        exact List.mem_map.mpr ⟨f, hfm, hfid⟩
      · exact hmem x h
    · intro x hx
      rcases List.mem_cons.mp hx with h | h
      · subst h
        exact ⟨p ++ [f.name], hstep, le_refl _⟩
      · obtain ⟨q, hq, hqlen⟩ := hvis x h
        exact ⟨q, hq, by simp; omega⟩

/-- Pigeonhole bound: a terminating walk produces a path no longer than the
folder list itself. -/
theorem pathTo_length_le {folders : List Folder} {o : Option String} {p : List String}
    (hp : PathTo folders o p) : p.length ≤ folders.length := by
  obtain ⟨ids, hlen, hnd, hmem, _⟩ := pathTo_visited hp
  have hsub : ids ⊆ folders.map Folder.id := hmem
  have := (List.subperm_of_subset hnd hsub).length_le
  simp only [List.length_map] at this
  omega

/-- Canonicality of the fuel `folders.length + 1`: the fuelled walk
succeeds at that fuel exactly when the source loop terminates. -/
theorem walkUp_isSome_iff_pathTo {folders : List Folder} {o : Option String} {acc : List String} :
    (walkUp folders (folders.length + 1) o acc).isSome ↔ ∃ p, PathTo folders o p := by
  constructor
  · intro h
    obtain ⟨r, hr⟩ := Option.isSome_iff_exists.mp h
    obtain ⟨p, hp, _⟩ := walkUp_sound hr
    exact ⟨p, hp⟩
  · rintro ⟨p, hp⟩
    have hle : p.length + 1 ≤ folders.length + 1 := by
      have := pathTo_length_le hp
      omega
    rw [walkUp_complete hp acc _ hle]
    simp

/-- `buildFolderPath` computes exactly the `PathTo` relation on ids outside
the guarded sentinel values. -/
theorem buildFolderPath_eq_pathTo {folders : List Folder} {fid : String} {p : List String}
    (hne : fid ≠ "") (hns : fid ≠ "uncategorized") :
    buildFolderPath (some fid) folders = some p ↔ PathTo folders (some fid) p := by
  have hguard : ¬ (fid = "" ∨ fid = "uncategorized") := by simp [hne, hns]
  simp only [buildFolderPath, if_neg hguard]
  constructor
  · intro h
    obtain ⟨q, hq, hr⟩ := walkUp_sound h
    simpa [hr] using hq
  · intro hp
    have hle : p.length + 1 ≤ folders.length + 1 := by
      have := pathTo_length_le hp
      omega
    simpa using walkUp_complete hp [] _ hle

/-- An intact chain of depth `n` is a terminating walk with an `n`-name
path. -/
theorem depthTo_pathTo {folders : List Folder} {o : Option String} {n : Nat}
    (h : DepthTo folders o n) : ∃ p, PathTo folders o p ∧ p.length = n := by
  induction h with
  | root => exact ⟨[], PathTo.root, rfl⟩
  | step id f n hne hfind hrec ih =>
    obtain ⟨p, hp, hlen⟩ := ih
    exact ⟨p ++ [f.name], PathTo.step id f p hne hfind hp, by simp [hlen]⟩

theorem pathTo_demo_beats : PathTo demoFolders (some "b") ["Beats"] := by
  have h := @PathTo.step demoFolders "b" beatsFolder [] (by decide) (by rfl) PathTo.root
  simpa using h

theorem pathTo_demo_trap : PathTo demoFolders (some "t") ["Beats", "Trap"] := by
  have h := @PathTo.step demoFolders "t" trapFolder ["Beats"] (by decide) (by rfl)
    pathTo_demo_beats
  simpa using h

theorem acyclic_demoFolders : Acyclic demoFolders := by
  intro o
  match o with
  | none => exact ⟨[], PathTo.root⟩
  | some x =>
    by_cases hb : x = "b"
    · subst hb; exact ⟨_, pathTo_demo_beats⟩
    by_cases ht : x = "t"
    · subst ht; exact ⟨_, pathTo_demo_trap⟩
    by_cases he : x = ""
    · subst he; exact ⟨[], PathTo.empty⟩
    refine ⟨[], PathTo.missing x he ?_⟩
    unfold findFolder
    rw [List.find?_eq_none]
    intro f hf hpf
    simp only [demoFolders, beatsFolder, trapFolder, List.mem_cons,
      List.not_mem_nil, or_false] at hf
    rcases hf with rfl | rfl
    · simp only [beq_iff_eq] at hpf
      exact hb hpf.symm
    · simp only [beq_iff_eq] at hpf
      exact ht hpf.symm

/-- On the self-loop fixture the walk fails for every fuel: the source loop
has no step bound of its own and diverges. -/
theorem walkUp_selfLoop_none (fuel : Nat) (acc : List String) :
    walkUp [selfLoopFolder] fuel (some "a") acc = none := by
  induction fuel generalizing acc with
  | zero => simp [walkUp]
  | succ fuel ih =>
    have hfind : findFolder [selfLoopFolder] "a" = some selfLoopFolder := by rfl
    simp only [walkUp, hfind]
    rw [if_neg (by decide)]
    exact ih ("A" :: acc)

/-- C2 (counterexample).  The depth clause of the claim fails on a folder
whose id is the sentinel `"uncategorized"`: its ancestor chain is intact
with depth 1, but `buildFolderPath` hits the sentinel guard and returns the
empty path, of length 0. -/
theorem buildFolderPath_depth_cx :
    DepthTo [sentinelFolder] (some "uncategorized") 1 ∧
    buildFolderPath (some "uncategorized") [sentinelFolder] = some [] ∧
    ([] : List String).length ≠ 1 := by
  refine ⟨?_, by rfl, by decide⟩
  have h := @DepthTo.step [sentinelFolder] "uncategorized" sentinelFolder 0
    (by decide) (by rfl) DepthTo.root
  exact h

/-- C2 (amended).  `buildFolderPath` returns `some []` for `null` and for
the sentinel `"uncategorized"`; for any other non-empty id it returns
exactly the path computed by the upward walk (prepending each found name,
stopping at a falsy `parentId` or a missing folder, `PathTo`); and for such
an id whose ancestor chain is intact the path length equals the folder's
depth, root excluded. -/
theorem buildFolderPath_spec (folders : List Folder) :
    buildFolderPath none folders = some [] ∧
    buildFolderPath (some "uncategorized") folders = some [] ∧
    (∀ fid p, fid ≠ "" → fid ≠ "uncategorized" → PathTo folders (some fid) p →
      buildFolderPath (some fid) folders = some p) ∧
    (∀ fid n, fid ≠ "" → fid ≠ "uncategorized" → DepthTo folders (some fid) n →
      ∃ p, buildFolderPath (some fid) folders = some p ∧ p.length = n) := by
  refine ⟨rfl, by simp [buildFolderPath], ?_, ?_⟩
  · intro fid p hne hns hp
    exact (buildFolderPath_eq_pathTo hne hns).mpr hp
  · intro fid n hne hns hd
    obtain ⟨p, hp, hlen⟩ := depthTo_pathTo hd
    exact ⟨p, (buildFolderPath_eq_pathTo hne hns).mpr hp, hlen⟩

/-- C2 (witness): the amended claim applied to the demo tree, where the
nested folder has depth 2 and path `["Beats", "Trap"]`. -/
theorem buildFolderPath_spec_witness :
    buildFolderPath (some "t") demoFolders = some ["Beats", "Trap"] ∧
    ∃ p, buildFolderPath (some "t") demoFolders = some p ∧ p.length = 2 := by
  have h := buildFolderPath_spec demoFolders
  refine ⟨h.2.2.1 "t" ["Beats", "Trap"] (by decide) (by decide) pathTo_demo_trap, ?_⟩
  refine h.2.2.2 "t" 2 (by decide) (by decide) ?_
  have hb := @DepthTo.step demoFolders "b" beatsFolder 0 (by decide) (by rfl)
    DepthTo.root
  have ht := @DepthTo.step demoFolders "t" trapFolder 1 (by decide) (by rfl) hb
  exact ht

/-- On an acyclic folder list every `buildFolderPath` walk terminates. -/
theorem buildFolderPath_isSome {folders : List Folder} (hacyclic : Acyclic folders)
    (folderId : Option String) : (buildFolderPath folderId folders).isSome := by
  match folderId with
  | none => simp [buildFolderPath]
  | some fid =>
    by_cases hguard : fid = "" ∨ fid = "uncategorized"
    · simp [buildFolderPath, hguard]
    push_neg at hguard
    obtain ⟨p, hp⟩ := hacyclic (some fid)
    rw [(buildFolderPath_eq_pathTo hguard.1 hguard.2).mpr hp]
    simp

/-- C10 (confirmed).  First conjunct: on an acyclic folder list (every
parent chain reaches `null`, the empty string, or a missing folder in
finitely many steps, captured by `PathTo`) the `buildFolderPath` walk
terminates for every starting id.  Second conjunct: the acyclicity
precondition is required — on a self-parent folder the walk runs out of any
finite fuel, i.e. the source loop, which has no step bound of its own,
diverges. -/
theorem buildFolderPath_terminates :
    (∀ (folders : List Folder) (folderId : Option String), Acyclic folders →
      (buildFolderPath folderId folders).isSome) ∧
    (∀ fuel acc, walkUp [selfLoopFolder] fuel (some "a") acc = none) :=
  ⟨fun _ folderId hacyclic => buildFolderPath_isSome hacyclic folderId,
   walkUp_selfLoop_none⟩

/-- C10 (witness): termination on the concrete acyclic demo tree. -/
theorem buildFolderPath_terminates_witness :
    (buildFolderPath (some "t") demoFolders).isSome ∧
    walkUp [selfLoopFolder] 5 (some "a") [] = none :=
  ⟨buildFolderPath_terminates.1 demoFolders (some "t") acyclic_demoFolders,
   buildFolderPath_terminates.2 5 []⟩

theorem hitsIn_unique {folders : List Folder} {id : String} {o : Option String} {n m : Nat}
    (hn : HitsIn folders id o n) (hm : HitsIn folders id o m) : n = m := by
  induction hn generalizing m with
  | here _ => cases hm with
    | here => rfl
    | step c m hc hne _ => exact absurd rfl hne
  | step c n hc hne hrec ih =>
    cases hm with
    | here _ => exact absurd rfl hne
    | step _ m _ _ hrec2 => rw [ih hrec2]

theorem missesIn_unique {folders : List Folder} {id : String} {o : Option String} {n m : Nat}
    (hn : MissesIn folders id o n) (hm : MissesIn folders id o m) : n = m := by
  induction hn generalizing m with
  | root => cases hm; rfl
  | empty => cases hm with
    | empty => rfl
    | step c m hc => exact absurd rfl hc
  | step c n hc hne hrec ih =>
    cases hm with
    | empty => exact absurd rfl hc
    | step _ m _ _ hrec2 => rw [ih hrec2]

/-- A hit never targets the empty string: the loop exits on a falsy pointer
before comparing it with `id`. -/
theorem hitsIn_id_ne_empty {folders : List Folder} {id : String} {o : Option String} {n : Nat}
    (h : HitsIn folders id o n) : id ≠ "" := by
  induction h with
  | here hne => exact hne
  | step c n hc hne hrec ih => exact ih

/-- Pigeonhole bound for a hitting walk: the `n` visited intermediate ids
are distinct folder ids, so `n ≤ folders.length`. -/
theorem hitsIn_bound {folders : List Folder} {id : String} {o : Option String} {n : Nat}
    (h : HitsIn folders id o n) : n ≤ folders.length := by
  have key : ∀ o n, HitsIn folders id o n →
      ∃ ids : List String, ids.Nodup ∧ (∀ x ∈ ids, x ∈ folders.map Folder.id) ∧
        n ≤ ids.length ∧ (∀ x ∈ ids, ∃ k ≤ n, HitsIn folders id (some x) k) := by
    intro o n h
    induction h with
    | here _ => exact ⟨[], by simp⟩
    | step c n hc hne hrec ih =>
      obtain ⟨ids, hnd, hmem, hlen, hvis⟩ := ih
      have hstep : HitsIn folders id (some c) (n + 1) := HitsIn.step c n hc hne hrec
      have hcnot : c ∉ ids := by
        intro hin
        obtain ⟨k, hk, hkh⟩ := hvis c hin
        have := hitsIn_unique hkh hstep
        omega
      have hcfind : ∃ f, findFolder folders c = some f := by
        match hfind : findFolder folders c with
        | some f => exact ⟨f, rfl⟩
        | none =>
          have : nextParent folders c = none := by simp [nextParent, hfind]
          rw [this] at hrec
          cases hrec
      obtain ⟨f, hf⟩ := hcfind
      refine ⟨c :: ids, List.nodup_cons.mpr ⟨hcnot, hnd⟩, ?_, by simp; omega, ?_⟩
      · intro x hx
        rcases List.mem_cons.mp hx with rfl | hx2
        · obtain ⟨hfm, hfid⟩ := findFolder_some_mem hf
          exact List.mem_map.mpr ⟨f, hfm, hfid⟩
        · exact hmem x hx2
      · intro x hx
        rcases List.mem_cons.mp hx with rfl | hx2
        · exact ⟨n + 1, le_refl _, hstep⟩
        · obtain ⟨k, hk, hkh⟩ := hvis x hx2
          exact ⟨k, by omega, hkh⟩
  obtain ⟨ids, hnd, hmem, hlen, _⟩ := key o n h
  have := (List.subperm_of_subset hnd hmem).length_le
  simp only [List.length_map] at this
  omega

/-- Pigeonhole bound for a missing walk: at most one visited id can be a
dangling pointer (its find fails and the walk then stops), the rest are
distinct folder ids, so `n ≤ folders.length + 1`. -/
theorem missesIn_bound {folders : List Folder} {id : String} {o : Option String} {n : Nat}
    (h : MissesIn folders id o n) : n ≤ folders.length + 1 := by
  have key : ∀ o n, MissesIn folders id o n →
      ∃ ids : List String, ids.Nodup ∧ (∀ x ∈ ids, x ∈ folders.map Folder.id) ∧
        n ≤ ids.length + 1 ∧ (∀ x ∈ ids, ∃ k ≤ n, MissesIn folders id (some x) k) := by
    intro o n h
    induction h with
    | root => exact ⟨[], by simp⟩
    | empty => exact ⟨[], by simp⟩
    | step c n hc hne hrec ih =>
      obtain ⟨ids, hnd, hmem, hlen, hvis⟩ := ih
      have hstep : MissesIn folders id (some c) (n + 1) := MissesIn.step c n hc hne hrec
      have hcnot : c ∉ ids := by
        intro hin
        obtain ⟨k, hk, hkh⟩ := hvis c hin
        have := missesIn_unique hkh hstep
        omega
      match hfind : findFolder folders c with
      | none =>
        have hnone : nextParent folders c = none := by simp [nextParent, hfind]
        rw [hnone] at hrec
        cases hrec
        exact ⟨[], by simp⟩
      | some f =>
        refine ⟨c :: ids, List.nodup_cons.mpr ⟨hcnot, hnd⟩, ?_, by simp; omega, ?_⟩
        · intro x hx
          rcases List.mem_cons.mp hx with rfl | hx2
          · obtain ⟨hfm, hfid⟩ := findFolder_some_mem hfind
            exact List.mem_map.mpr ⟨f, hfm, hfid⟩
          · exact hmem x hx2
        · intro x hx
          rcases List.mem_cons.mp hx with rfl | hx2
          · exact ⟨n + 1, le_refl _, hstep⟩
          · obtain ⟨k, hk, hkh⟩ := hvis x hx2
            exact ⟨k, by omega, hkh⟩
  obtain ⟨ids, hnd, hmem, hlen, _⟩ := key o n h
  have := (List.subperm_of_subset hnd hmem).length_le
  simp only [List.length_map] at this
  omega

/-- A hitting walk makes the fuelled cycle check answer `true` once the fuel
covers its steps. -/
theorem cycleCheck_of_hitsIn {folders : List Folder} {id : String} {o : Option String} {n : Nat}
    (h : HitsIn folders id o n) : ∀ fuel, n ≤ fuel → cycleCheck folders id fuel o = some true := by
  induction h with
  | here hne => intro fuel _; cases fuel <;> simp [cycleCheck, hne]
  | step c n hc hne hrec ih =>
    intro fuel hfuel
    match fuel, hfuel with
    | fuel + 1, hfuel =>
      simp only [cycleCheck, if_neg hc, if_neg hne]
      exact ih fuel (by omega)

/-- A missing walk makes the fuelled cycle check answer `false` once the
fuel covers its steps. -/
theorem cycleCheck_of_missesIn {folders : List Folder} {id : String} {o : Option String} {n : Nat}
    (h : MissesIn folders id o n) : ∀ fuel, n ≤ fuel → cycleCheck folders id fuel o = some false := by
  induction h with
  | root => intro fuel _; cases fuel <;> simp [cycleCheck]
  | empty => intro fuel _; cases fuel <;> simp [cycleCheck]
  | step c n hc hne hrec ih =>
    intro fuel hfuel
    match fuel, hfuel with
    | fuel + 1, hfuel =>
      simp only [cycleCheck, if_neg hc, if_neg hne]
      exact ih fuel (by omega)

/-- Soundness of the fuelled cycle check: a definite answer reflects a
hitting or a missing walk. -/
theorem cycleCheck_sound {folders : List Folder} {id : String} {fuel : Nat} {o : Option String}
    {b : Bool} (h : cycleCheck folders id fuel o = some b) :
    (b = true → ChainHits folders id o) ∧ (b = false → ChainMisses folders id o) := by
  induction fuel generalizing o with
  | zero =>
    match o with
    | none =>
      simp only [cycleCheck] at h
      cases h
      exact ⟨by simp, fun _ => ⟨0, MissesIn.root⟩⟩
    | some current =>
      by_cases hce : current = ""
      · subst hce
        simp only [cycleCheck, if_pos rfl] at h
        cases h
        exact ⟨by simp, fun _ => ⟨0, MissesIn.empty⟩⟩
      · by_cases hci : current = id
        · subst hci
          simp only [cycleCheck, if_neg hce, if_pos rfl] at h
          cases h
          exact ⟨fun _ => ⟨0, HitsIn.here hce⟩, by simp⟩
        · simp only [cycleCheck, if_neg hce, if_neg hci] at h
          exact Option.noConfusion h
  | succ fuel ih =>
    match o with
    | none =>
      simp only [cycleCheck] at h
      cases h
      exact ⟨by simp, fun _ => ⟨0, MissesIn.root⟩⟩
    | some current =>
      by_cases hce : current = ""
      · subst hce
        simp only [cycleCheck, if_pos rfl] at h
        cases h
        exact ⟨by simp, fun _ => ⟨0, MissesIn.empty⟩⟩
      · by_cases hci : current = id
        · subst hci
          simp only [cycleCheck, if_neg hce, if_pos rfl] at h
          cases h
          exact ⟨fun _ => ⟨0, HitsIn.here hce⟩, by simp⟩
        · simp only [cycleCheck, if_neg hce, if_neg hci] at h
          obtain ⟨h1, h2⟩ := ih h
          constructor
          · intro hb
            obtain ⟨n, hn⟩ := h1 hb
            exact ⟨n + 1, HitsIn.step current n hce hci hn⟩
          · intro hb
            obtain ⟨n, hn⟩ := h2 hb
            exact ⟨n + 1, MissesIn.step current n hce hci hn⟩

/-- Updating folder `id` does not change lookups of other ids. -/
theorem findFolder_setParent_ne {folders : List Folder} {id x : String}
    {newParentId : Option String} (hne : x ≠ id) :
    findFolder (setParent folders id newParentId) x = findFolder folders x := by
  induction folders with
  | nil => rfl
  | cons f rest ih =>
    unfold setParent
    by_cases hf : f.id = id
    · rw [if_pos hf]
      have h1 : (f.id == x) = false := beq_eq_false_iff_ne.mpr (by rw [hf]; exact fun h => hne h.symm)
      unfold findFolder
      simp only [List.find?]
      rw [show (({ f with parentId := newParentId } : Folder).id == x) = false from h1]
    · rw [if_neg hf]
      unfold findFolder
      simp only [List.find?]
      by_cases hfx : f.id = x
      · rw [show (f.id == x) = true by simp [hfx]]
      · rw [show (f.id == x) = false by simp [hfx]]
        exact ih

/-- Updating folder `id` makes its lookup return the updated record. -/
theorem findFolder_setParent_eq {folders : List Folder} {id : String} {f : Folder}
    {newParentId : Option String} (hfind : findFolder folders id = some f) :
    findFolder (setParent folders id newParentId) id = some { f with parentId := newParentId } := by
  induction folders with
  | nil => simp [findFolder] at hfind
  | cons g rest ih =>
    unfold setParent
    by_cases hg : g.id = id
    · rw [if_pos hg]
      unfold findFolder at hfind ⊢
      simp only [List.find?] at hfind ⊢
      rw [show (g.id == id) = true by simp [hg]] at hfind
      rw [show (({ g with parentId := newParentId } : Folder).id == id) = true by simp [hg]]
      cases hfind
      rfl
    · rw [if_neg hg]
      unfold findFolder at hfind ⊢
      simp only [List.find?] at hfind ⊢
      rw [show (g.id == id) = false by simp [hg]] at hfind ⊢
      exact ih hfind

/-- A missing walk survives the parent update: the chain from its start
exists in the updated list (it never passes through the updated folder). -/
theorem pathTo_setParent_of_missesIn {folders : List Folder} {id : String}
    {newParentId : Option String} {o : Option String} {n : Nat}
    (h : MissesIn folders id o n) :
    ∃ p, PathTo (setParent folders id newParentId) o p := by
  induction h with
  | root => exact ⟨[], PathTo.root⟩
  | empty => exact ⟨[], PathTo.empty⟩
  | step c n hc hne hrec ih =>
    obtain ⟨p, hp⟩ := ih
    match hfind : findFolder folders c with
    | none =>
      refine ⟨[], PathTo.missing c hc ?_⟩
      rw [findFolder_setParent_ne hne]
      exact hfind
    | some f =>
      have hnp : nextParent folders c = f.parentId := by simp [nextParent, hfind]
      rw [hnp] at hp
      refine ⟨p ++ [f.name], PathTo.step c f p hc ?_ hp⟩
      rw [findFolder_setParent_ne hne]
      exact hfind

/-- Re-parenting a folder onto a chain that does not contain it preserves
acyclicity of the folder list. -/
theorem acyclic_setParent {folders : List Folder} {id : String} {f : Folder}
    {newParentId : Option String} (hA : Acyclic folders)
    (hfind : findFolder folders id = some f)
    (hmiss : ChainMisses folders id newParentId) :
    Acyclic (setParent folders id newParentId) := by
  obtain ⟨n, hmn⟩ := hmiss
  have hnp : ∃ q, PathTo (setParent folders id newParentId) newParentId q :=
    pathTo_setParent_of_missesIn hmn
  have hid : ∃ q, PathTo (setParent folders id newParentId) (some id) q := by
    by_cases hide : id = ""
    · subst hide; exact ⟨[], PathTo.empty⟩
    · obtain ⟨q, hq⟩ := hnp
      exact ⟨q ++ [f.name], PathTo.step id { f with parentId := newParentId } q hide
        (findFolder_setParent_eq hfind) hq⟩
  intro o
  obtain ⟨p, hp⟩ := hA o
  clear hA
  induction hp with
  | root => exact ⟨[], PathTo.root⟩
  | empty => exact ⟨[], PathTo.empty⟩
  | missing c hc hcf =>
    by_cases hci : c = id
    · subst hci; exact hid
    · refine ⟨[], PathTo.missing c hc ?_⟩
      rw [findFolder_setParent_ne hci]
      exact hcf
  | step c g p hc hcf hrec ih =>
    by_cases hci : c = id
    · subst hci; exact hid
    · obtain ⟨q, hq⟩ := ih
      refine ⟨q ++ [g.name], PathTo.step c g q hc ?_ hq⟩
      rw [findFolder_setParent_ne hci]
      exact hcf

/-- A hitting walk continues as a path suffix: if the walk from `o` reaches
`x` and the full walk from `o` terminates with path `q`, then the walk from
`x` terminates with a path no longer than `q`. -/
theorem hitsIn_pathTo_suffix {folders : List Folder} {x : String} {o : Option String}
    {n : Nat} {q : List String} (hh : HitsIn folders x o n) (hq : PathTo folders o q) :
    ∃ r, PathTo folders (some x) r ∧ r.length ≤ q.length := by
  induction hh generalizing q with
  | here _ => exact ⟨q, hq, le_refl _⟩
  | step c n hc hne hrec ih =>
    cases hq with
    | empty => exact absurd rfl hc
    | missing _ _ hcf =>
      have : nextParent folders c = none := by simp [nextParent, hcf]
      rw [this] at hrec
      cases hrec
    | step _ g p _ hcf hrecq =>
      have hnp : nextParent folders c = g.parentId := by simp [nextParent, hcf]
      rw [← hnp] at hrecq
      obtain ⟨r, hr, hrlen⟩ := ih hrecq
      exact ⟨r, hr, by simp; omega⟩

/-- On an acyclic folder list no folder is its own ancestor. -/
theorem acyclic_no_selfAncestor {folders : List Folder} (hA : Acyclic folders)
    (fid : String) : ¬ SelfAncestor folders fid := by
  rintro ⟨n, hits⟩
  obtain ⟨p, hp⟩ := hA (some fid)
  cases hp with
  | empty =>
    exact hitsIn_id_ne_empty hits rfl
  | missing _ hne hcf =>
    have : nextParent folders fid = none := by simp [nextParent, hcf]
    rw [this] at hits
    cases hits
  | step _ g p hne hcf hrec =>
    have hnp : nextParent folders fid = g.parentId := by simp [nextParent, hcf]
    rw [hnp] at hits
    obtain ⟨r, hr, hrlen⟩ := hitsIn_pathTo_suffix hits hrec
    have := pathTo_unique hr (PathTo.step fid g p hne hcf hrec)
    subst this
    simp at hrlen

/-- C1 (counterexample).  `moveFolder("A", some "B")` on a library where
`"A"` occurs on the parent chain walked upward from `"B"` (via the dangling
pointer) but no folder `"A"` exists is rejected with `FOLDER_NOT_FOUND`,
not with `INVALID_OPERATION": the existence check runs before the cycle
check. -/
theorem moveFolder_cycle_cx :
    ChainHits danglingLib.folders "A" (some "B") ∧
    moveFolder danglingLib emptyDisk "A" (some "B") =
      some (Except.error (StorageError.FOLDER_NOT_FOUND "A"), danglingLib, emptyDisk) ∧
    ∀ reason, (Except.error (StorageError.FOLDER_NOT_FOUND "A") : Except StorageError Unit) ≠
      Except.error (StorageError.INVALID_OPERATION reason) := by
  refine ⟨⟨1, HitsIn.step "B" 0 (by decide) (by decide) ?_⟩, by rfl, by intro r h; simp at h⟩
  exact HitsIn.here (by decide)

/-- C1 (amended).  For a folder `id` that exists in the list: if `id` occurs
on the parent chain walked upward from `newParentId` (including
`newParentId = id`), `moveFolder` is rejected with `INVALID_OPERATION` and
the library and disk are unchanged; if the chain terminates without meeting
`id`, the cycle check passes; and any completed call on an acyclic folder
list leaves a folder list in which no folder is its own ancestor. -/
theorem moveFolder_cycle_spec (lib : LibraryData) (disk : Disk) (id : String)
    (newParentId : Option String) (f : Folder)
    (hfind : findFolder lib.folders id = some f) :
    (ChainHits lib.folders id newParentId →
      moveFolder lib disk id newParentId =
        some (Except.error (StorageError.INVALID_OPERATION
          "Cannot move folder into itself or descendant"), lib, disk)) ∧
    (ChainMisses lib.folders id newParentId →
      cycleCheck lib.folders id (lib.folders.length + 1) newParentId = some false) ∧
    (∀ res lib2 disk2, moveFolder lib disk id newParentId = some (res, lib2, disk2) →
      Acyclic lib.folders → ∀ fid, ¬ SelfAncestor lib2.folders fid) := by
  refine ⟨?_, ?_, ?_⟩
  · rintro ⟨n, hn⟩
    have hcc := cycleCheck_of_hitsIn hn (lib.folders.length + 1)
      (by have := hitsIn_bound hn; omega)
    unfold moveFolder
    rw [hfind, hcc]
  · rintro ⟨n, hn⟩
    exact cycleCheck_of_missesIn hn _ (by have := missesIn_bound hn; omega)
  · intro res lib2 disk2 hmv hA fid
    unfold moveFolder at hmv
    rw [hfind] at hmv
    match hcc : cycleCheck lib.folders id (lib.folders.length + 1) newParentId with
    | none =>
      rw [hcc] at hmv
      exact Option.noConfusion hmv
    | some true =>
      rw [hcc] at hmv
      simp only [Option.some.injEq, Prod.mk.injEq] at hmv
      obtain ⟨-, hl, -⟩ := hmv
      rw [← hl]
      exact acyclic_no_selfAncestor hA fid
    | some false =>
      rw [hcc] at hmv
      have hmiss : ChainMisses lib.folders id newParentId := (cycleCheck_sound hcc).2 rfl
      match hbp1 : buildFolderPath (some id) lib.folders,
            hbp2 : buildFolderPath newParentId lib.folders with
      | none, _ =>
        rw [hbp1] at hmv
        exact Option.noConfusion hmv
      | some oldPath, none =>
        rw [hbp1, hbp2] at hmv
        exact Option.noConfusion hmv
      | some oldPath, some newParentPath =>
        rw [hbp1, hbp2] at hmv
        have hmv2 : (match moveDirectoryD disk oldPath newParentPath with
            | Except.error e => some (Except.error e, lib, disk)
            | Except.ok disk1 =>
              some (Except.ok (),
                { lib with folders := setParent lib.folders id newParentId }, disk1)) =
            some (res, lib2, disk2) := hmv
        match hmd : moveDirectoryD disk oldPath newParentPath with
        | Except.error e =>
          rw [hmd] at hmv2
          simp only [Option.some.injEq, Prod.mk.injEq] at hmv2
          obtain ⟨-, hl, -⟩ := hmv2
          rw [← hl]
          exact acyclic_no_selfAncestor hA fid
        | Except.ok disk1 =>
          rw [hmd] at hmv2
          simp only [Option.some.injEq, Prod.mk.injEq] at hmv2
          obtain ⟨-, hl, -⟩ := hmv2
          rw [← hl]
          exact acyclic_no_selfAncestor (acyclic_setParent hA hfind hmiss) fid

/-- C1 (witness): on the demo tree, moving `Beats` into its child `Trap` is
rejected with `INVALID_OPERATION` and changes nothing; moving `Trap` to the
root passes the cycle check; and completing a move of `Trap` under `Beats`
leaves a list with no self-ancestor. -/
theorem moveFolder_cycle_spec_witness :
    moveFolder demoLib demoDisk "b" (some "t") =
      some (Except.error (StorageError.INVALID_OPERATION
        "Cannot move folder into itself or descendant"), demoLib, demoDisk) ∧
    cycleCheck demoFolders "t" 3 none = some false ∧
    ∃ res lib2 disk2, moveFolder demoLib demoDisk "t" (some "b") = some (res, lib2, disk2) ∧
      ¬ SelfAncestor lib2.folders "t" := by
  refine ⟨?_, ?_, ?_⟩
  · exact (moveFolder_cycle_spec demoLib demoDisk "b" (some "t") beatsFolder (by rfl)).1
      ⟨1, HitsIn.step "t" 0 (by decide) (by decide) (HitsIn.here (by decide))⟩
  · exact (moveFolder_cycle_spec demoLib demoDisk "t" none trapFolder (by rfl)).2.1
      ⟨0, MissesIn.root⟩
  · obtain ⟨res, lib2, disk2, hmv⟩ :
        ∃ r l d, moveFolder demoLib demoDisk "t" (some "b") = some (r, l, d) := ⟨_, _, _, rfl⟩
    exact ⟨res, lib2, disk2, hmv,
      (moveFolder_cycle_spec demoLib demoDisk "t" (some "b") trapFolder (by rfl)).2.2
        res lib2 disk2 hmv acyclic_demoFolders "t"⟩

theorem dedupAux_sublist (seen : List String) (recs : List Recording) :
    (dedupAux seen recs).Sublist recs := by
  induction recs generalizing seen with
  | nil => exact List.Sublist.refl _
  | cons r rest ih =>
    by_cases h : r.id ∈ seen
    · simp only [dedupAux, if_pos h]
      exact (ih seen).cons r
    · simp only [dedupAux, if_neg h]
      exact (ih (r.id :: seen)).cons₂ r

theorem dedupAux_not_seen {seen : List String} {recs : List Recording} :
    ∀ r ∈ dedupAux seen recs, r.id ∉ seen := by
  induction recs generalizing seen with
  | nil => simp [dedupAux]
  | cons s rest ih =>
    intro r hr
    by_cases h : s.id ∈ seen
    · rw [dedupAux, if_pos h] at hr
      exact ih r hr
    · rw [dedupAux, if_neg h] at hr
      rcases List.mem_cons.mp hr with rfl | hr2
      · exact h
      · have := ih r hr2
        intro hc
        exact this (List.mem_cons_of_mem _ hc)

theorem dedupAux_nodup (seen : List String) (recs : List Recording) :
    ((dedupAux seen recs).map Recording.id).Nodup := by
  induction recs generalizing seen with
  | nil => simp [dedupAux]
  | cons r rest ih =>
    by_cases h : r.id ∈ seen
    · rw [dedupAux, if_pos h]
      exact ih seen
    · rw [dedupAux, if_neg h]
      simp only [List.map_cons, List.nodup_cons]
      refine ⟨?_, ih (r.id :: seen)⟩
      intro hc
      obtain ⟨s, hs, hsid⟩ := List.mem_map.mp hc
      have := dedupAux_not_seen s hs
      rw [hsid] at this
      exact this (List.mem_cons_self _ _)

theorem dedupAux_mem_id {recs : List Recording} {seen : List String} :
    ∀ r ∈ recs, r.id ∉ seen → r.id ∈ (dedupAux seen recs).map Recording.id := by
  induction recs generalizing seen with
  | nil => simp
  | cons s rest ih =>
    intro r hr hnot
    rcases List.mem_cons.mp hr with rfl | hr2
    · rw [dedupAux, if_neg hnot]
      simp
    · by_cases h : s.id ∈ seen
      · rw [dedupAux, if_pos h]
        exact ih r hr2 hnot
      · rw [dedupAux, if_neg h]
        by_cases hid : r.id = s.id
        · simp [hid]
        · simp only [List.map_cons, List.mem_cons]
          right
          exact ih r hr2 (by simp [hid, hnot])

theorem dedupAux_first_occurrence {recs : List Recording} {seen : List String} :
    ∀ r ∈ dedupAux seen recs,
      r.id ∉ seen ∧ recs.find? (fun s => s.id == r.id) = some r := by
  induction recs generalizing seen with
  | nil => simp [dedupAux]
  | cons s rest ih =>
    intro r hr
    by_cases h : s.id ∈ seen
    · rw [dedupAux, if_pos h] at hr
      obtain ⟨hnot, hfind⟩ := ih r hr
      have hne : ¬ ((s.id == r.id) = true) := by
        simp only [beq_iff_eq]
        intro hc
        exact hnot (hc ▸ h)
      refine ⟨hnot, ?_⟩
      rw [List.find?, show (s.id == r.id) = false by simpa using hne]
      exact hfind
    · rw [dedupAux, if_neg h] at hr
      rcases List.mem_cons.mp hr with rfl | hr2
      · refine ⟨h, ?_⟩
        rw [List.find?, show (r.id == r.id) = true by simp]
      · obtain ⟨hnot, hfind⟩ := ih r hr2
        have hne : r.id ≠ s.id := by
          intro hc
          exact hnot (by simp [hc])
        refine ⟨fun hc => hnot (List.mem_cons_of_mem _ hc), ?_⟩
        rw [List.find?, show (s.id == r.id) = false by
          simpa using fun hc => hne hc.symm]
        exact hfind

theorem dedupAux_of_nodup {recs : List Recording} {seen : List String}
    (hnd : (recs.map Recording.id).Nodup) (hdisj : ∀ r ∈ recs, r.id ∉ seen) :
    dedupAux seen recs = recs := by
  induction recs generalizing seen with
  | nil => rfl
  | cons r rest ih =>
    simp only [List.map_cons, List.nodup_cons] at hnd
    rw [dedupAux, if_neg (hdisj r (List.mem_cons_self _ _))]
    congr 1
    refine ih hnd.2 ?_
    intro s hs
    simp only [List.mem_cons, not_or]
    refine ⟨?_, hdisj s (List.mem_cons_of_mem _ hs)⟩
    intro hc
    exact hnd.1 (List.mem_map.mpr ⟨s, hs, hc⟩)

/-- C7 (confirmed).  De-duplication keeps the first occurrence of every id
(each kept recording is what `find?` by its id returns), drops later
duplicates (the kept ids are pairwise distinct yet every incoming id is
still represented), preserves the relative order of kept recordings (the
result is a sublist of the input), and is idempotent. -/
theorem dedupRecordings_spec (recs : List Recording) :
    (dedupRecordings recs).Sublist recs ∧
    ((dedupRecordings recs).map Recording.id).Nodup ∧
    (∀ r ∈ recs, r.id ∈ (dedupRecordings recs).map Recording.id) ∧
    (∀ r ∈ dedupRecordings recs, recs.find? (fun s => s.id == r.id) = some r) ∧
    dedupRecordings (dedupRecordings recs) = dedupRecordings recs := by
  refine ⟨dedupAux_sublist [] recs, dedupAux_nodup [] recs, ?_, ?_, ?_⟩
  · intro r hr
    exact dedupAux_mem_id r hr (by simp)
  · intro r hr
    exact (dedupAux_first_occurrence r hr).2
  · exact dedupAux_of_nodup (dedupAux_nodup [] recs) (by simp)

/-- C7 (witness): the spec applied to a concrete list with a duplicated
id. -/
theorem dedupRecordings_spec_witness :
    (dedupRecordings [recA, recB, recAdup]).Sublist [recA, recB, recAdup] ∧
    recAdup.id ∈ (dedupRecordings [recA, recB, recAdup]).map Recording.id ∧
    [recA, recB, recAdup].find? (fun s => s.id == recA.id) = some recA ∧
    dedupRecordings (dedupRecordings [recA, recB, recAdup]) =
      dedupRecordings [recA, recB, recAdup] := by
  have h := dedupRecordings_spec [recA, recB, recAdup]
  refine ⟨h.1, h.2.2.1 recAdup (by simp), ?_, h.2.2.2.2⟩
  refine h.2.2.2.1 recA ?_
  show recA ∈ dedupAux [] [recA, recB, recAdup]
  simp [dedupAux, recA, recB, recAdup]

theorem scanFoldersRead_eq {disk : Disk} {folders : List Folder} {filename : String} :
    ∀ {fl : List Folder} {ps : List (List String)}, folderPathsList folders fl = some ps →
      scanFoldersRead disk folders filename fl = some (firstReadHit disk filename ps) := by
  intro fl
  induction fl with
  | nil =>
    intro ps hps
    simp only [folderPathsList, Option.some.injEq] at hps
    subst hps
    rfl
  | cons f rest ih =>
    intro ps hps
    unfold folderPathsList at hps
    match hbp : buildFolderPath (some f.id) folders,
          hrest : folderPathsList folders rest with
    | some p, some ps2 =>
      rw [hbp, hrest] at hps
      simp only [Option.some.injEq] at hps
      subst hps
      cases hrf : readFileD disk p filename with
      | ok b => simp only [scanFoldersRead, firstReadHit, hbp, hrf]
      | error e =>
        simp only [scanFoldersRead, firstReadHit, hbp, hrf]
        exact ih hrest
    | none, _ =>
      rw [hbp] at hps
      exact Option.noConfusion hps
    | some p, none =>
      rw [hbp, hrest] at hps
      exact Option.noConfusion hps

theorem scanFoldersExists_eq {disk : Disk} {folders : List Folder} {filename : String} :
    ∀ {fl : List Folder} {ps : List (List String)}, folderPathsList folders fl = some ps →
      scanFoldersExists disk folders filename fl = some (firstExistsHit disk filename ps) := by
  intro fl
  induction fl with
  | nil =>
    intro ps hps
    simp only [folderPathsList, Option.some.injEq] at hps
    subst hps
    rfl
  | cons f rest ih =>
    intro ps hps
    unfold folderPathsList at hps
    match hbp : buildFolderPath (some f.id) folders,
          hrest : folderPathsList folders rest with
    | some p, some ps2 =>
      rw [hbp, hrest] at hps
      simp only [Option.some.injEq] at hps
      subst hps
      by_cases hex : fileExistsD disk p filename
      · simp only [scanFoldersExists, firstExistsHit, hbp, hex, if_true]
      · simp only [scanFoldersExists, firstExistsHit, hbp, hex, Bool.false_eq_true,
          if_false]
        exact ih hrest
    | none, _ =>
      rw [hbp] at hps
      exact Option.noConfusion hps
    | some p, none =>
      rw [hbp, hrest] at hps
      exact Option.noConfusion hps

/-- C6 (confirmed).  The fallback search probes exactly the specified
locations in order — expected path, root, then every known folder's
directory in folder-list order: `getRecordingBlob` returns the first
content found and `FILE_NOT_FOUND` only once all probes are exhausted, and
the delete-side search returns the first location where the file exists. -/
theorem fallbackSearch_spec (lib : LibraryData) (disk : Disk) (id : String)
    (recording : Recording) (locs : List (List String))
    (hfind : lib.recordings.find? (fun r => r.id == id) = some recording)
    (hlocs : probeLocations lib recording = some locs) :
    getRecordingBlob lib disk id =
      some (match firstReadHit disk recording.filename locs with
            | some b => Except.ok b
            | none => Except.error (StorageError.FILE_NOT_FOUND recording.filename)) ∧
    findActualPath lib disk recording =
      some (firstExistsHit disk recording.filename locs) := by
  unfold probeLocations at hlocs
  match hexp : getRecordingDiskPath recording lib.folders,
        hps : folderPathsList lib.folders lib.folders with
  | some expected, some ps =>
    rw [hexp, hps] at hlocs
    simp only [Option.some.injEq] at hlocs
    subst hlocs
    constructor
    · cases hr1 : readFileD disk expected recording.filename with
      | ok b => simp only [getRecordingBlob, firstReadHit, hfind, hexp, hr1]
      | error e1 =>
        cases hr2 : readFileD disk [] recording.filename with
        | ok b => simp only [getRecordingBlob, firstReadHit, hfind, hexp, hr1, hr2]
        | error e2 =>
          simp only [getRecordingBlob, firstReadHit, hfind, hexp, hr1, hr2,
            scanFoldersRead_eq hps]
          cases firstReadHit disk recording.filename ps <;> rfl
    · by_cases h1 : fileExistsD disk expected recording.filename
      · simp only [findActualPath, firstExistsHit, hexp, h1, if_true]
      · by_cases h2 : fileExistsD disk [] recording.filename
        · simp only [findActualPath, firstExistsHit, hexp, h1, h2, Bool.false_eq_true,
            if_false, if_true]
        · simp only [findActualPath, firstExistsHit, hexp, h1, h2, Bool.false_eq_true,
            if_false]
          exact scanFoldersExists_eq hps
  | none, _ =>
    rw [hexp] at hlocs
    exact Option.noConfusion hlocs
  | some expected, none =>
    rw [hexp, hps] at hlocs
    exact Option.noConfusion hlocs

/-- C6 (witness): with the file drifted to the root, the probe sequence
finds it at its second location, so the read returns its contents and the
existence search returns the root path. -/
theorem fallbackSearch_spec_witness :
    getRecordingBlob demoLibB driftDisk "r2" = some (Except.ok [1, 2]) ∧
    findActualPath demoLibB driftDisk recB = some (some []) := by
  have h := fallbackSearch_spec demoLibB driftDisk "r2" recB
    [["Beats", "Trap"], [], ["Beats"], ["Beats", "Trap"]] (by rfl) (by rfl)
  exact ⟨h.1.trans (by rfl), h.2.trans (by rfl)⟩

/-- The empty folder list is acyclic. -/
theorem acyclic_nil : Acyclic ([] : List Folder) := by
  intro o
  match o with
  | none => exact ⟨[], PathTo.root⟩
  | some x =>
    by_cases he : x = ""
    · subst he; exact ⟨[], PathTo.empty⟩
    · exact ⟨[], PathTo.missing x he rfl⟩

theorem scanFoldersExists_isSome {disk : Disk} {folders : List Folder} {filename : String}
    (hA : Acyclic folders) (fl : List Folder) :
    (scanFoldersExists disk folders filename fl).isSome := by
  induction fl with
  | nil => simp [scanFoldersExists]
  | cons f rest ih =>
    obtain ⟨p, hp⟩ := Option.isSome_iff_exists.mp (buildFolderPath_isSome hA (some f.id))
    rw [scanFoldersExists, hp]
    by_cases hex : fileExistsD disk p filename
    · simp [hex]
    · simp only [hex, Bool.false_eq_true, if_false]
      exact ih

theorem findActualPath_isSome {lib : LibraryData} {disk : Disk} {recording : Recording}
    (hA : Acyclic lib.folders) : (findActualPath lib disk recording).isSome := by
  obtain ⟨p, hp⟩ := Option.isSome_iff_exists.mp
    (buildFolderPath_isSome hA (some recording.folderId))
  rw [findActualPath, show getRecordingDiskPath recording lib.folders = some p from hp]
  by_cases h1 : fileExistsD disk p recording.filename
  · simp [h1]
  · simp only [h1, Bool.false_eq_true, if_false]
    by_cases h2 : fileExistsD disk [] recording.filename
    · simp [h2]
    · simp only [h2, Bool.false_eq_true, if_false]
      exact scanFoldersExists_isSome hA lib.folders

theorem deleteRecordingFileD_isSome {lib : LibraryData} {disk : Disk} {recording : Recording}
    (hA : Acyclic lib.folders) : (deleteRecordingFileD lib disk recording).isSome := by
  obtain ⟨v, hv⟩ := Option.isSome_iff_exists.mp (@findActualPath_isSome lib disk recording hA)
  rw [deleteRecordingFileD, hv]
  cases v <;> simp

theorem deleteCropFiles_isSome {lib : LibraryData} (hA : Acyclic lib.folders) :
    ∀ (crops : List Recording) (disk : Disk), (deleteCropFiles lib disk crops).isSome := by
  intro crops
  induction crops with
  | nil => intro disk; simp [deleteCropFiles]
  | cons c rest ih =>
    intro disk
    obtain ⟨d2, hd2⟩ := Option.isSome_iff_exists.mp (@deleteRecordingFileD_isSome lib disk c hA)
    rw [deleteCropFiles, hd2]
    exact ih d2

/-- Reduction of `deleteRecording` once the fallback deletion of the main
file is resolved: the two index updates it can perform. -/
theorem deleteRecording_reduce (lib : LibraryData) (disk : Disk) (id : String)
    (recording : Recording) (disk1 : Disk)
    (hfind : lib.recordings.find? (fun r => r.id == id) = some recording)
    (hd1 : deleteRecordingFileD lib disk recording = some disk1) :
    deleteRecording lib disk id false =
      some (Except.ok (),
        { lib with recordings := lib.recordings.filter (fun r => r.id != id) }, disk1) ∧
    (∀ disk2,
      deleteCropFiles lib disk1 (lib.recordings.filter (fun r => r.parentId == some id)) =
        some disk2 →
      deleteRecording lib disk id true =
        some (Except.ok (),
          { lib with recordings := lib.recordings.filter (fun r =>
              !((id :: (lib.recordings.filter
                  (fun r => r.parentId == some id)).map Recording.id).contains r.id)) },
          disk2)) := by
  constructor
  · simp only [deleteRecording, hfind, hd1]
    rw [if_neg (by decide)]
  · intro disk2 hd2
    simp only [deleteRecording, hfind, hd1, hd2]
    rw [if_pos trivial]

/-- C4 (counterexample).  `deleteRecording("p", deleteChildren = false)`
does not clear the surviving crop's `parentId`: the crop keeps
`parentId = "p"` (the source comments that the caller is expected to have
detached it).  Also, the adapter's `deleteFile` in a *missing* directory is
`FOLDER_NOT_FOUND`, not success. -/
theorem deleteRecording_detach_cx :
    deleteRecording libPC emptyDisk "p" false =
      some (Except.ok (), ⟨[recC], []⟩, emptyDisk) ∧
    recC.parentId = some "p" ∧
    deleteFileD emptyDisk ["X"] "f.wav" =
      Except.error (StorageError.FOLDER_NOT_FOUND "X") :=
  ⟨rfl, rfl, rfl⟩

/-- C4 (amended).  For an existing recording id on a well-formed library
(acyclic folders, no duplicate recording ids): `deleteRecording` always
succeeds — in particular when the file is absent everywhere, a missing file
not being an error; with `deleteChildren = true` it removes the recording
and every recording whose `parentId` equals `id` (its crops) in one index
update and keeps everything else; with `deleteChildren = false` it removes
only the parent recording, leaving the crops (their `parentId` untouched)
to survive as recordings; and the adapter's `deleteFile` of an absent file
in an existing directory is success. -/
theorem deleteRecording_spec (lib : LibraryData) (disk : Disk) (id : String)
    (recording : Recording)
    (hfind : lib.recordings.find? (fun r => r.id == id) = some recording)
    (hA : Acyclic lib.folders)
    (hnd : (lib.recordings.map Recording.id).Nodup) :
    (∀ dc : Bool, ∃ lib2 disk2,
      deleteRecording lib disk id dc = some (Except.ok (), lib2, disk2)) ∧
    (∀ lib2 disk2, deleteRecording lib disk id true = some (Except.ok (), lib2, disk2) →
      (∀ r ∈ lib.recordings, (r.id = id ∨ r.parentId = some id) → r ∉ lib2.recordings) ∧
      (∀ r ∈ lib.recordings, r.id ≠ id → r.parentId ≠ some id → r ∈ lib2.recordings)) ∧
    (∀ lib2 disk2, deleteRecording lib disk id false = some (Except.ok (), lib2, disk2) →
      lib2.recordings = lib.recordings.filter (fun r => r.id != id)) ∧
    (∀ (d : Disk) (path : List String) (name : String), dirExists d path = true →
      ∃ d2, deleteFileD d path name = Except.ok d2) := by
  obtain ⟨disk1, hd1⟩ := Option.isSome_iff_exists.mp
    (@deleteRecordingFileD_isSome lib disk recording hA)
  obtain ⟨hred1, hred2⟩ := deleteRecording_reduce lib disk id recording disk1 hfind hd1
  obtain ⟨disk2, hd2⟩ := Option.isSome_iff_exists.mp
    (deleteCropFiles_isSome hA (lib.recordings.filter (fun r => r.parentId == some id)) disk1)
  have hred2 := hred2 disk2 hd2
  refine ⟨?_, ?_, ?_, ?_⟩
  · intro dc
    cases dc
    · exact ⟨_, _, hred1⟩
    · exact ⟨_, _, hred2⟩
  · intro lib2 dk2 heq
    rw [hred2] at heq
    simp only [Option.some.injEq, Prod.mk.injEq] at heq
    obtain ⟨-, hl, -⟩ := heq
    constructor
    · intro r hr hcase hmem
      rw [← hl] at hmem
      simp only [List.mem_filter] at hmem
      have hpred := hmem.2
      simp only [Bool.not_eq_eq_eq_not, Bool.not_true] at hpred
      have hnotmem : r.id ∉ id ::
          (lib.recordings.filter (fun r => r.parentId == some id)).map Recording.id := by
        intro hc
        have hct : (id :: (lib.recordings.filter
            (fun r => r.parentId == some id)).map Recording.id).contains r.id = true :=
          List.contains_iff_exists_mem_beq.mpr ⟨r.id, hc, by simp⟩
        rw [hpred] at hct
        exact Bool.noConfusion hct
      rcases hcase with hcid | hcp
      · exact hnotmem (by simp [hcid])
      · refine hnotmem (List.mem_cons_of_mem _ ?_)
        exact List.mem_map.mpr ⟨r, List.mem_filter.mpr ⟨hr, by simp [hcp]⟩, rfl⟩
    · intro r hr hnid hnp
      rw [← hl]
      refine List.mem_filter.mpr ⟨hr, ?_⟩
      simp only [Bool.not_eq_eq_eq_not, Bool.not_true]
      rw [← Bool.not_eq_true]
      intro hct
      obtain ⟨a2, ha2mem, hbeq⟩ := List.contains_iff_exists_mem_beq.mp hct
      have ha2 : a2 = r.id := by
        have := (beq_iff_eq).mp hbeq
        exact this.symm
      subst ha2
      rcases List.mem_cons.mp ha2mem with hcid | hcmap
      · exact hnid hcid
      · obtain ⟨c, hcmem, hcid⟩ := List.mem_map.mp hcmap
        have hcrec := (List.mem_filter.mp hcmem).1
        have hcpar : c.parentId = some id := by
          have := (List.mem_filter.mp hcmem).2
          simpa using this
        have : c = r := List.inj_on_of_nodup_map hnd hcrec hr hcid
        subst this
        exact hnp hcpar
  · intro lib2 dk2 heq
    rw [hred1] at heq
    simp only [Option.some.injEq, Prod.mk.injEq] at heq
    obtain ⟨-, hl, -⟩ := heq
    rw [← hl]
  · intro d path name hdir
    exact ⟨_, by unfold deleteFileD; rw [if_pos hdir]⟩

/-- C4 (witness): on a concrete two-recording library (parent and crop) on
an empty disk — the file is absent everywhere — both modes succeed; crop
deletion removes the crop, crop-keeping deletion leaves exactly the crop
with its `parentId` intact; deleting an absent file at the existing root is
success. -/
theorem deleteRecording_spec_witness :
    (∃ lib2 disk2, deleteRecording libPC emptyDisk "p" true =
      some (Except.ok (), lib2, disk2)) ∧
    (∀ lib2 disk2, deleteRecording libPC emptyDisk "p" true =
      some (Except.ok (), lib2, disk2) → recC ∉ lib2.recordings) ∧
    (∀ lib2 disk2, deleteRecording libPC emptyDisk "p" false =
      some (Except.ok (), lib2, disk2) → lib2.recordings = [recC]) ∧
    (∃ d2, deleteFileD emptyDisk [] "zzz.wav" = Except.ok d2) := by
  have h := deleteRecording_spec libPC emptyDisk "p" recP (by rfl) acyclic_nil (by decide)
  refine ⟨h.1 true, ?_, ?_, h.2.2.2 emptyDisk [] "zzz.wav" (by rfl)⟩
  · intro lib2 disk2 heq
    exact (h.2.1 lib2 disk2 heq).1 recC (by simp [libPC]) (Or.inr rfl)
  · intro lib2 disk2 heq
    exact (h.2.2.1 lib2 disk2 heq).trans (by rfl)

/-- C9 (counterexample).  A metadata-only move of a recording whose
`parentId` is the empty string leaves the `parentId` in place: the source
clears the crop link only when it is truthy. -/
theorem moveRecording_clear_cx :
    recE.parentId = some "" ∧
    (∃ updated lib2, moveRecording ⟨[recE], []⟩ emptyDisk "e" "x" =
      some (Except.ok updated, lib2, emptyDisk) ∧ updated.parentId = some "") :=
  ⟨rfl, ⟨_, _, rfl, rfl⟩⟩

/-- C9 (amended).  When the fallback search finds the recording's file
nowhere, `moveRecording` still succeeds with a metadata-only update: no
file operation is performed (the disk is returned unchanged), `folderId`
becomes `newFolderId`, and `parentId` is cleared when it is truthy (a
non-empty string). -/
theorem moveRecording_missing_file_spec (lib : LibraryData) (disk : Disk)
    (id newFolderId : String) (recording : Recording) (newPath : List String)
    (hfind : lib.recordings.find? (fun r => r.id == id) = some recording)
    (hconf : lib.recordings.find? (conflictPred id newFolderId recording.tabTitle) = none)
    (hnp : buildFolderPath (some newFolderId) lib.folders = some newPath)
    (habsent : findActualPath lib disk recording = some none) :
    moveRecording lib disk id newFolderId =
      some (Except.ok (clearParentTruthy { recording with folderId := newFolderId }),
        { lib with recordings := (setRecording lib.recordings id
            (clearParentTruthy { recording with folderId := newFolderId })) }, disk) ∧
    (clearParentTruthy { recording with folderId := newFolderId }).folderId = newFolderId ∧
    (strTruthy recording.parentId = true →
      (clearParentTruthy { recording with folderId := newFolderId }).parentId = none) := by
  refine ⟨?_, ?_, ?_⟩
  · simp only [moveRecording, hfind, hconf, hnp, habsent]
  · unfold clearParentTruthy
    by_cases h : strTruthy ({ recording with folderId := newFolderId }).parentId
    · rw [if_pos h]
    · rw [if_neg h]
  · intro h
    unfold clearParentTruthy
    rw [if_pos (by simpa using h)]

/-- C9 (witness): the metadata-only move applied to a crop with a truthy
crop link — the move succeeds on an empty disk, re-points the folder, and
detaches the crop. -/
theorem moveRecording_missing_file_spec_witness :
    ∃ updated lib2, moveRecording ⟨[recC], []⟩ emptyDisk "c" "x" =
      some (Except.ok updated, lib2, emptyDisk) ∧
      updated.folderId = "x" ∧ updated.parentId = none := by
  have h := moveRecording_missing_file_spec ⟨[recC], []⟩ emptyDisk "c" "x" recC []
    (by rfl) (by rfl) (by rfl) (by rfl)
  exact ⟨_, _, h.1, h.2.1, h.2.2 (by rfl)⟩

theorem readFileD_ok {d : Disk} {p : List String} {n : String} {b : Blob}
    (h : readFileD d p n = Except.ok b) :
    dirExists d p = true ∧ findFile d p n = some b := by
  unfold readFileD at h
  by_cases hd : dirExists d p
  · rw [if_pos hd] at h
    match hf : findFile d p n with
    | some b2 => rw [hf] at h; cases h; exact ⟨hd, rfl⟩
    | none => rw [hf] at h; cases h
  · rw [if_neg hd] at h
    cases h

theorem readFileD_error_no_conflict {d : Disk} {p : List String} {n : String}
    {e : StorageError} (h : readFileD d p n = Except.error e) :
    ∀ s, e ≠ StorageError.NAME_CONFLICT s := by
  unfold readFileD at h
  by_cases hd : dirExists d p
  · rw [if_pos hd] at h
    match hf : findFile d p n with
    | some b2 => rw [hf] at h; cases h
    | none => rw [hf] at h; cases h; intro s hc; cases hc
  · rw [if_neg hd] at h
    cases h
    intro s hc
    cases hc

theorem deleteFileD_error_no_conflict {d : Disk} {p : List String} {n : String}
    {e : StorageError} (h : deleteFileD d p n = Except.error e) :
    ∀ s, e ≠ StorageError.NAME_CONFLICT s := by
  unfold deleteFileD at h
  by_cases hd : dirExists d p
  · rw [if_pos hd] at h; cases h
  · rw [if_neg hd] at h
    cases h
    intro s hc
    cases hc

theorem moveFileD_error_no_conflict {d : Disk} {a : List String} {n : String}
    {p : List String} {e : StorageError} (h : moveFileD d a n p = Except.error e) :
    ∀ s, e ≠ StorageError.NAME_CONFLICT s := by
  unfold moveFileD at h
  match hr : readFileD d a n with
  | Except.error e2 =>
    rw [hr] at h
    cases h
    exact readFileD_error_no_conflict hr
  | Except.ok blob =>
    rw [hr] at h
    exact deleteFileD_error_no_conflict h

theorem dirExists_writeFileD {d : Disk} {p q : List String} {n : String} {b : Blob}
    (h : dirExists d p = true) : dirExists (writeFileD d q n b) p = true := by
  unfold dirExists at h ⊢
  unfold writeFileD getOrCreateDirectoryD
  rcases Bool.or_eq_true_iff.mp h with h1 | h2
  · simp [h1]
  · simp only [Bool.or_eq_true_iff]
    right
    simp only [List.elem_eq_mem, decide_eq_true_iff] at h2 ⊢
    exact List.mem_append_left _ h2

/-- C5 (counterexample).  With the file absent from its expected path,
`moveRecording` succeeds via the fallback search (metadata-only), but
`moveRecordingWithRename` — which has no fallback — fails with
`FILE_NOT_FOUND` even though its new title is unique, so it does not
perform the same move. -/
theorem moveRename_nofallback_cx :
    (∃ updated lib2, moveRecording ⟨[recF], []⟩ emptyDisk "f" "x" =
      some (Except.ok updated, lib2, emptyDisk)) ∧
    moveRecordingWithRename ⟨[recF], []⟩ emptyDisk "f" "x" "G" =
      some (Except.error (StorageError.FILE_NOT_FOUND "f.wav"), ⟨[recF], []⟩, emptyDisk) :=
  ⟨⟨_, _, rfl⟩, rfl⟩

/-- C5 (amended).  `moveRecording` fails with `NAME_CONFLICT`, leaving the
library and disk unchanged, whenever some other recording in the
destination folder has the same `tabTitle`; `moveRecordingWithRename` with
a `newTitle` unique in the destination never fails with `NAME_CONFLICT`,
and when the recording's file is readable at its expected path it performs
the move together with the title change in the same operation: the file is
relocated to the destination path and the updated record carries the new
folder and title. -/
theorem moveRecording_nameConflict_spec (lib : LibraryData) (disk : Disk)
    (id newFolderId newTitle : String) (recording : Recording)
    (hfind : lib.recordings.find? (fun r => r.id == id) = some recording) :
    ((∃ other ∈ lib.recordings, other.id ≠ id ∧ other.folderId = newFolderId ∧
        other.tabTitle = recording.tabTitle) →
      moveRecording lib disk id newFolderId =
        some (Except.error (StorageError.NAME_CONFLICT recording.tabTitle), lib, disk)) ∧
    ((∀ other ∈ lib.recordings, other.id ≠ id → other.folderId = newFolderId →
        other.tabTitle ≠ newTitle) →
      (∀ res lib2 disk2, moveRecordingWithRename lib disk id newFolderId newTitle =
          some (res, lib2, disk2) →
        ∀ s, res ≠ Except.error (StorageError.NAME_CONFLICT s)) ∧
      (∀ oldPath newPath blob,
        getRecordingDiskPath recording lib.folders = some oldPath →
        buildFolderPath (some newFolderId) lib.folders = some newPath →
        readFileD disk oldPath recording.filename = Except.ok blob →
        ∃ disk2 updated, moveRecordingWithRename lib disk id newFolderId newTitle =
            some (Except.ok updated,
              { lib with recordings := (setRecording lib.recordings id updated) }, disk2) ∧
          updated.folderId = newFolderId ∧ updated.tabTitle = newTitle ∧
          (oldPath ≠ newPath →
            findFile disk2 newPath recording.filename = some blob ∧
            findFile disk2 oldPath recording.filename = none))) := by
  constructor
  · rintro ⟨other, hmem, h1, h2, h3⟩
    have hpred : conflictPred id newFolderId recording.tabTitle other = true := by
      simp [conflictPred, h1, h2, h3]
    obtain ⟨c, hc⟩ := Option.isSome_iff_exists.mp
      (List.find?_isSome.mpr ⟨other, hmem, hpred⟩)
    simp only [moveRecording, hfind, hc]
  · intro huniq
    have hconf : lib.recordings.find? (conflictPred id newFolderId newTitle) = none := by
      rw [List.find?_eq_none]
      intro x hx hpred
      simp only [conflictPred, Bool.and_eq_true, bne_iff_ne, beq_iff_eq] at hpred
      exact huniq x hx hpred.1.1 hpred.1.2 hpred.2
    constructor
    · intro res lib2 disk2 heq s
      unfold moveRecordingWithRename at heq
      rw [hfind, hconf] at heq
      have heq1 : (match getRecordingDiskPath recording lib.folders,
            buildFolderPath (some newFolderId) lib.folders with
          | some oldPath, some newPath =>
            match moveFileD disk oldPath recording.filename newPath with
            | Except.error e => some (Except.error e, lib, disk)
            | Except.ok disk1 =>
              some (Except.ok (clearParentTruthy
                  { recording with folderId := newFolderId, tabTitle := newTitle }),
                { lib with recordings := (setRecording lib.recordings id (clearParentTruthy
                  { recording with folderId := newFolderId, tabTitle := newTitle })) },
                disk1)
          | _, _ => none) = some (res, lib2, disk2) := heq
      clear heq
      match hop : getRecordingDiskPath recording lib.folders,
            hnp : buildFolderPath (some newFolderId) lib.folders with
      | some oldPath, some newPath =>
        rw [hop, hnp] at heq1
        have heq2 : (match moveFileD disk oldPath recording.filename newPath with
            | Except.error e => some (Except.error e, lib, disk)
            | Except.ok disk1 =>
              some (Except.ok (clearParentTruthy
                  { recording with folderId := newFolderId, tabTitle := newTitle }),
                { lib with recordings := (setRecording lib.recordings id (clearParentTruthy
                  { recording with folderId := newFolderId, tabTitle := newTitle })) },
                disk1)) = some (res, lib2, disk2) := heq1
        match hmf : moveFileD disk oldPath recording.filename newPath with
        | Except.error e =>
          rw [hmf] at heq2
          simp only [Option.some.injEq, Prod.mk.injEq] at heq2
          obtain ⟨hres, -, -⟩ := heq2
          rw [← hres]
          intro hc
          cases hc
          exact moveFileD_error_no_conflict hmf s rfl
        | Except.ok disk1 =>
          rw [hmf] at heq2
          simp only [Option.some.injEq, Prod.mk.injEq] at heq2
          obtain ⟨hres, -, -⟩ := heq2
          rw [← hres]
          intro hc
          cases hc
      | none, _ =>
        rw [hop] at heq1
        exact Option.noConfusion heq1
      | some oldPath, none =>
        rw [hop, hnp] at heq1
        exact Option.noConfusion heq1
    · intro oldPath newPath blob hop hnp hread
      obtain ⟨hdir, -⟩ := readFileD_ok hread
      have hdelok : deleteFileD (writeFileD disk newPath recording.filename blob)
          oldPath recording.filename = Except.ok
            { writeFileD disk newPath recording.filename blob with
              files := (writeFileD disk newPath recording.filename blob).files.filter
                (fun e => !(e.1 == oldPath && e.2.1 == recording.filename)) } := by
        unfold deleteFileD
        rw [if_pos (dirExists_writeFileD hdir)]
      have hmf : moveFileD disk oldPath recording.filename newPath = Except.ok
          { writeFileD disk newPath recording.filename blob with
            files := (writeFileD disk newPath recording.filename blob).files.filter
              (fun e => !(e.1 == oldPath && e.2.1 == recording.filename)) } := by
        unfold moveFileD
        rw [hread]
        exact hdelok
      refine ⟨{ writeFileD disk newPath recording.filename blob with
          files := (writeFileD disk newPath recording.filename blob).files.filter
            (fun e => !(e.1 == oldPath && e.2.1 == recording.filename)) },
        clearParentTruthy { recording with folderId := newFolderId, tabTitle := newTitle },
        ?_, ?_, ?_, ?_⟩
      · simp only [moveRecordingWithRename, hfind, hconf, hop, hnp, hmf]
      · unfold clearParentTruthy
        by_cases h : strTruthy
            ({ recording with folderId := newFolderId, tabTitle := newTitle }).parentId
        · rw [if_pos h]
        · rw [if_neg h]
      · unfold clearParentTruthy
        by_cases h : strTruthy
            ({ recording with folderId := newFolderId, tabTitle := newTitle }).parentId
        · rw [if_pos h]
        · rw [if_neg h]
      · intro hne
        constructor
        · unfold findFile writeFileD getOrCreateDirectoryD
          rw [List.filter_cons]
          rw [show (!((newPath, recording.filename, blob).1 == oldPath &&
              (newPath, recording.filename, blob).2.1 == recording.filename)) = true by
            simp [beq_eq_false_iff_ne.mpr (Ne.symm hne)]]
          simp [List.find?]
        · unfold findFile
          rw [show (List.find? (fun e => e.1 == oldPath && e.2.1 == recording.filename)
              ((writeFileD disk newPath recording.filename blob).files.filter
                (fun e => !(e.1 == oldPath && e.2.1 == recording.filename)))) = none from ?_]
          · rfl
          · rw [List.find?_eq_none]
            intro e he hpred
            have := (List.mem_filter.mp he).2
            rw [hpred] at this
            cases this

/-- C5 (witness): moving `g` into `t`, where `h` has the same title, is a
`NAME_CONFLICT` leaving everything unchanged; the rename variant with the
unique title `T2` into `b` succeeds, relocates the file from
`Beats/Trap` to `Beats`, and carries the new folder and title. -/
theorem moveRecording_nameConflict_spec_witness :
    moveRecording libGH renameDisk "g" "t" =
      some (Except.error (StorageError.NAME_CONFLICT "T"), libGH, renameDisk) ∧
    (∃ disk2 updated,
      moveRecordingWithRename libGH renameDisk "g" "b" "T2" =
        some (Except.ok updated,
          { libGH with recordings := (setRecording libGH.recordings "g" updated) }, disk2) ∧
      updated.folderId = "b" ∧ updated.tabTitle = "T2" ∧
      findFile disk2 ["Beats"] "g.wav" = some [7] ∧
      findFile disk2 ["Beats", "Trap"] "g.wav" = none) := by
  constructor
  · exact (moveRecording_nameConflict_spec libGH renameDisk "g" "t" "T2" recG (by rfl)).1
      ⟨recH, by simp [libGH], by decide, rfl, rfl⟩
  · have huniq : ∀ other ∈ libGH.recordings, other.id ≠ "g" → other.folderId = "b" →
        other.tabTitle ≠ "T2" := by
      intro other hmem h1 h2
      simp only [libGH, List.mem_cons, List.not_mem_nil, or_false] at hmem
      rcases hmem with rfl | rfl
      · exact absurd rfl h1
      · decide
    obtain ⟨disk2, updated, heq, hfol, htit, hcond⟩ :=
      ((moveRecording_nameConflict_spec libGH renameDisk "g" "b" "T2" recG (by rfl)).2 huniq).2
        ["Beats", "Trap"] ["Beats"] [7] (by rfl) (by rfl) (by rfl)
    obtain ⟨hnew, hold⟩ := hcond (by decide)
    exact ⟨disk2, updated, heq, hfol, htit, hnew, hold⟩

theorem setParent_map_id (folders : List Folder) (id : String) (pid : Option String) :
    (setParent folders id pid).map Folder.id = folders.map Folder.id := by
  induction folders with
  | nil => rfl
  | cons f rest ih =>
    by_cases hf : f.id = id
    · simp [setParent, hf]
    · simp [setParent, hf, ih]

theorem setParent_mem_ne {folders : List Folder} {id : String} {pid : Option String}
    {g : Folder} (hg : g ∈ folders) (hne : g.id ≠ id) : g ∈ setParent folders id pid := by
  induction folders with
  | nil => cases hg
  | cons f rest ih =>
    rcases List.mem_cons.mp hg with rfl | hg2
    · simp [setParent, hne]
    · by_cases hf : f.id = id
      · simp only [setParent, if_pos hf]
        exact List.mem_cons_of_mem _ hg2
      · simp only [setParent, if_neg hf]
        exact List.mem_cons_of_mem _ (ih hg2)

theorem setParent_mem_self {folders : List Folder} {pid : Option String} {c : Folder}
    (hnd : (folders.map Folder.id).Nodup) (hc : c ∈ folders) :
    { c with parentId := pid } ∈ setParent folders c.id pid := by
  induction folders with
  | nil => cases hc
  | cons f rest ih =>
    simp only [List.map_cons, List.nodup_cons] at hnd
    rcases List.mem_cons.mp hc with rfl | hc2
    · simp [setParent]
    · have hf : f.id ≠ c.id := by
        intro hcon
        exact hnd.1 (hcon ▸ List.mem_map.mpr ⟨c, hc2, rfl⟩)
      simp only [setParent, if_neg hf]
      exact List.mem_cons_of_mem _ (ih hnd.2 hc2)

theorem setParent_elems {folders : List Folder} {id : String} {pid : Option String} :
    ∀ g ∈ setParent folders id pid,
      g ∈ folders ∨ ∃ c ∈ folders, c.id = id ∧ g = { c with parentId := pid } := by
  induction folders with
  | nil => simp [setParent]
  | cons f rest ih =>
    intro g hg
    by_cases hf : f.id = id
    · rw [setParent, if_pos hf] at hg
      rcases List.mem_cons.mp hg with rfl | hg2
      · exact Or.inr ⟨f, List.mem_cons_self _ _, hf, rfl⟩
      · exact Or.inl (List.mem_cons_of_mem _ hg2)
    · rw [setParent, if_neg hf] at hg
      rcases List.mem_cons.mp hg with rfl | hg2
      · exact Or.inl (List.mem_cons_self _ _)
      · rcases ih g hg2 with h | ⟨c, hc, hcid, hgc⟩
        · exact Or.inl (List.mem_cons_of_mem _ h)
        · exact Or.inr ⟨c, List.mem_cons_of_mem _ hc, hcid, hgc⟩

theorem setParent_recordings (lib : LibraryData) (id : String) (pid : Option String) :
    ({ lib with folders := setParent lib.folders id pid } : LibraryData).recordings =
      lib.recordings := rfl

/-- With unique ids, looking up a member folder's id finds that folder. -/
theorem findFolder_self_of_nodup {folders : List Folder} {f : Folder}
    (hnd : (folders.map Folder.id).Nodup) (hf : f ∈ folders) :
    findFolder folders f.id = some f := by
  induction folders with
  | nil => cases hf
  | cons g rest ih =>
    simp only [List.map_cons, List.nodup_cons] at hnd
    rcases List.mem_cons.mp hf with rfl | hf2
    · unfold findFolder
      rw [List.find?, show (f.id == f.id) = true by simp]
    · have hg : g.id ≠ f.id := by
        intro hcon
        exact hnd.1 (hcon ▸ List.mem_map.mpr ⟨f, hf2, rfl⟩)
      unfold findFolder at ih ⊢
      rw [List.find?, show (g.id == f.id) = false by simpa using hg]
      exact ih hnd.2 hf2

/-- A successful lookup in any list with unique ids pins the folder: every
match equals it. -/
theorem findFolder_eq_of_nodup {folders : List Folder} {x : String} {f g : Folder}
    (hnd : (folders.map Folder.id).Nodup) (hfind : findFolder folders x = some f)
    (hg : g ∈ folders) (hgid : g.id = x) : g = f := by
  obtain ⟨hfm, hfid⟩ := findFolder_some_mem hfind
  exact List.inj_on_of_nodup_map hnd hg hfm (by rw [hgid, hfid])

theorem findFolder_none_sublist {folders2 folders : List Folder} {x : String}
    (hsub : List.Sublist folders2 folders) (h : findFolder folders x = none) :
    findFolder folders2 x = none := by
  unfold findFolder at h ⊢
  rw [List.find?_eq_none] at h ⊢
  intro g hg
  exact h g (hsub.subset hg)

theorem findFolder_sublist_mem {folders2 folders : List Folder} {x : String} {f : Folder}
    (hsub : List.Sublist folders2 folders) (hnd : (folders.map Folder.id).Nodup)
    (hfind : findFolder folders x = some f) (hf2 : f ∈ folders2) :
    findFolder folders2 x = some f := by
  have hnd2 : (folders2.map Folder.id).Nodup := (hsub.map Folder.id).nodup hnd
  obtain ⟨-, hfid⟩ := findFolder_some_mem hfind
  rw [← hfid]
  exact findFolder_self_of_nodup hnd2 hf2

theorem findFolder_sublist_not_mem {folders2 folders : List Folder} {x : String} {f : Folder}
    (hsub : List.Sublist folders2 folders) (hnd : (folders.map Folder.id).Nodup)
    (hfind : findFolder folders x = some f) (hf2 : f ∉ folders2) :
    findFolder folders2 x = none := by
  unfold findFolder
  rw [List.find?_eq_none]
  intro g hg hpred
  have hgid : g.id = x := by simpa using hpred
  have := findFolder_eq_of_nodup hnd hfind (hsub.subset hg) hgid
  subst this
  exact hf2 hg

/-- A hitting walk in a sublist lifts to the full list (with unique
ids). -/
theorem hitsIn_sublist_lift {folders2 folders : List Folder} {a : String}
    {o : Option String} {n : Nat} (hsub : List.Sublist folders2 folders)
    (hnd : (folders.map Folder.id).Nodup) (h : HitsIn folders2 a o n) :
    HitsIn folders a o n := by
  induction h with
  | here hne => exact HitsIn.here hne
  | step c n hc hne hrec ih =>
    refine HitsIn.step c n hc hne ?_
    match hfind : findFolder folders2 c with
    | some f =>
      have hnp2 : nextParent folders2 c = f.parentId := by simp [nextParent, hfind]
      have hfull : findFolder folders c = some f := by
        obtain ⟨hfm, hfid⟩ := findFolder_some_mem hfind
        rw [← hfid]
        exact findFolder_self_of_nodup hnd (hsub.subset hfm)
      have hnp : nextParent folders c = f.parentId := by simp [nextParent, hfull]
      rw [hnp]
      rw [hnp2] at ih
      exact ih
    | none =>
      have hnp2 : nextParent folders2 c = none := by simp [nextParent, hfind]
      rw [hnp2] at hrec
      cases hrec

/-- Acyclicity restricts to sublists (with unique ids): removing folders
only cuts chains shorter. -/
theorem acyclic_sublist {folders2 folders : List Folder} (hsub : List.Sublist folders2 folders)
    (hnd : (folders.map Folder.id).Nodup) (hA : Acyclic folders) : Acyclic folders2 := by
  intro o
  obtain ⟨p, hp⟩ := hA o
  clear hA
  induction hp with
  | root => exact ⟨[], PathTo.root⟩
  | empty => exact ⟨[], PathTo.empty⟩
  | missing c hc hcf => exact ⟨[], PathTo.missing c hc (findFolder_none_sublist hsub hcf)⟩
  | step c f p hc hcf hrec ih =>
    by_cases hf2 : f ∈ folders2
    · obtain ⟨q, hq⟩ := ih
      exact ⟨q ++ [f.name], PathTo.step c f q hc (findFolder_sublist_mem hsub hnd hcf hf2) hq⟩
    · exact ⟨[], PathTo.missing c hc (findFolder_sublist_not_mem hsub hnd hcf hf2)⟩

theorem wfFolders_sublist {folders2 folders : List Folder} (hsub : List.Sublist folders2 folders)
    (hwf : WFFolders folders) : WFFolders folders2 :=
  ⟨(hsub.map Folder.id).nodup hwf.1, acyclic_sublist hsub hwf.1 hwf.2.1,
   fun f hf => hwf.2.2 f (hsub.subset hf)⟩

theorem hitsIn_zero_inv {folders : List Folder} {b : String} {o : Option String}
    (h : HitsIn folders b o 0) : o = some b := by
  cases h
  rfl

theorem hitsIn_succ_inv {folders : List Folder} {b x : String} {k : Nat}
    (h : HitsIn folders b (some x) (k + 1)) :
    x ≠ "" ∧ x ≠ b ∧ HitsIn folders b (nextParent folders x) k := by
  cases h with
  | step _ _ hc hne hrec => exact ⟨hc, hne, hrec⟩

/-- A walk that first reaches `a` and whose continuation from `a` hits `b`
hits `b` overall. -/
theorem chainHits_compose {folders : List Folder} {a b : String} {o : Option String}
    {n : Nat} (h1 : HitsIn folders a o n) (h2 : ChainHits folders b (some a))
    (hb : b ≠ "") : ChainHits folders b o := by
  induction h1 with
  | here _ => exact h2
  | step c n hc hne hrec ih =>
    by_cases hcb : c = b
    · exact ⟨0, by rw [hcb]; exact HitsIn.here hb⟩
    · obtain ⟨k, hk⟩ := ih
      exact ⟨k + 1, HitsIn.step c k hc hcb hk⟩

/-- Two targets hit from the same start lie on one chain: one is reached
from the other. -/
theorem hitsIn_truncate {folders : List Folder} {a b : String} {o : Option String}
    {n m : Nat} (h1 : HitsIn folders a o n) (h2 : HitsIn folders b o m) :
    ChainHits folders b (some a) ∨ ChainHits folders a (some b) := by
  induction h1 generalizing m with
  | here _ => exact Or.inl ⟨m, h2⟩
  | step c n hc hne hrec ih =>
    cases h2 with
    | here _ => exact Or.inr ⟨n + 1, HitsIn.step _ n hc hne hrec⟩
    | step _ m _ hne2 hrec2 => exact ih hrec2

/-- On a well-formed list no folder is its own parent. -/
theorem no_self_parent {folders : List Folder} (hwf : WFFolders folders) {f : Folder}
    (hf : f ∈ folders) : f.parentId ≠ some f.id := by
  intro hcon
  refine acyclic_no_selfAncestor hwf.2.1 f.id ⟨0, ?_⟩
  have hnp : nextParent folders f.id = some f.id := by
    simp [nextParent, findFolder_self_of_nodup hwf.1 hf, hcon]
  rw [hnp]
  exact HitsIn.here (hwf.2.2 f hf)

/-- Separation of sibling subtrees: on a well-formed list, a chain cannot
hit two distinct folders that share a parent. -/
theorem sibling_separation {folders : List Folder} (hwf : WFFolders folders)
    {fA fB : Folder} {cid : String} {o : Option String}
    (hmA : fA ∈ folders) (hmB : fB ∈ folders)
    (hpA : fA.parentId = some cid) (hpB : fB.parentId = some cid)
    (h1 : ChainHits folders fA.id o) (h2 : ChainHits folders fB.id o) : fA = fB := by
  obtain ⟨n, hn⟩ := h1
  obtain ⟨m, hm⟩ := h2
  have key : ∀ (g1 g2 : Folder), g1 ∈ folders → g2 ∈ folders →
      g1.parentId = some cid → g2.parentId = some cid →
      ChainHits folders g2.id (some g1.id) → g1 = g2 := by
    intro g1 g2 hg1 hg2 hp1 hp2 hch
    obtain ⟨k, hk⟩ := hch
    match k with
    | 0 =>
      have := hitsIn_zero_inv hk
      simp only [Option.some.injEq] at this
      exact List.inj_on_of_nodup_map hwf.1 hg1 hg2 this
    | k + 1 =>
      exfalso
      obtain ⟨-, -, hrec⟩ := hitsIn_succ_inv hk
      have hnp1 : nextParent folders g1.id = some cid := by
        simp [nextParent, findFolder_self_of_nodup hwf.1 hg1, hp1]
      rw [hnp1] at hrec
      refine acyclic_no_selfAncestor hwf.2.1 g2.id ⟨k, ?_⟩
      have hnp2 : nextParent folders g2.id = some cid := by
        simp [nextParent, findFolder_self_of_nodup hwf.1 hg2, hp2]
      rw [hnp2]
      exact hrec
  rcases hitsIn_truncate hn hm with h | h
  · exact key fA fB hmA hmB hpA hpB h
  · exact (key fB fA hmB hmA hpB hpA h).symm

/-- Full case analysis of a completed `deleteRecording` call. -/
theorem deleteRecording_cases {lib : LibraryData} {disk : Disk} {rid : String} {dc : Bool}
    {res : Except StorageError Unit} {lib2 : LibraryData} {disk2 : Disk}
    (h : deleteRecording lib disk rid dc = some (res, lib2, disk2)) :
    (lib.recordings.find? (fun r => r.id == rid) = none ∧ lib2 = lib) ∨
    (∃ recording disk1, lib.recordings.find? (fun r => r.id == rid) = some recording ∧
      deleteRecordingFileD lib disk recording = some disk1 ∧ res = Except.ok () ∧
      ((dc = true ∧
        lib2 = { lib with recordings := lib.recordings.filter (fun r =>
          !((rid :: (lib.recordings.filter
            (fun r => r.parentId == some rid)).map Recording.id).contains r.id)) }) ∨
       (dc = false ∧
        lib2 = { lib with recordings := lib.recordings.filter (fun r => r.id != rid) }))) := by
  unfold deleteRecording at h
  match hfind : lib.recordings.find? (fun r => r.id == rid) with
  | none =>
    rw [hfind] at h
    simp only [Option.some.injEq, Prod.mk.injEq] at h
    exact Or.inl ⟨hfind, h.2.1.symm⟩
  | some recording =>
    rw [hfind] at h
    have h1 : (match deleteRecordingFileD lib disk recording with
        | none => none
        | some disk1 =>
          if dc = true then
            match deleteCropFiles lib disk1
                (lib.recordings.filter (fun r => r.parentId == some rid)) with
            | none => none
            | some disk3 =>
              some (Except.ok (), { lib with recordings := lib.recordings.filter (fun r =>
                !((rid :: (lib.recordings.filter
                  (fun r => r.parentId == some rid)).map Recording.id).contains r.id)) },
                disk3)
          else
            some (Except.ok (),
              { lib with recordings := lib.recordings.filter (fun r => r.id != rid) },
              disk1)) = some (res, lib2, disk2) := h
    clear h
    match hd1 : deleteRecordingFileD lib disk recording with
    | none => rw [hd1] at h1; exact Option.noConfusion h1
    | some disk1 =>
      rw [hd1] at h1
      have h2 : (if dc = true then
          match deleteCropFiles lib disk1
              (lib.recordings.filter (fun r => r.parentId == some rid)) with
          | none => none
          | some disk3 =>
            some (Except.ok (), { lib with recordings := lib.recordings.filter (fun r =>
              !((rid :: (lib.recordings.filter
                (fun r => r.parentId == some rid)).map Recording.id).contains r.id)) },
              disk3)
        else
          some (Except.ok (),
            { lib with recordings := lib.recordings.filter (fun r => r.id != rid) },
            disk1)) = some (res, lib2, disk2) := h1
      clear h1
      cases dc with
      | true =>
        rw [if_pos rfl] at h2
        match hd2 : deleteCropFiles lib disk1
            (lib.recordings.filter (fun r => r.parentId == some rid)) with
        | none => rw [hd2] at h2; exact Option.noConfusion h2
        | some disk3 =>
          rw [hd2] at h2
          simp only [Option.some.injEq, Prod.mk.injEq] at h2
          exact Or.inr ⟨recording, disk1, hfind, hd1, h2.1.symm, Or.inl ⟨rfl, h2.2.1.symm⟩⟩
      | false =>
        rw [if_neg (by decide)] at h2
        simp only [Option.some.injEq, Prod.mk.injEq] at h2
        exact Or.inr ⟨recording, disk1, hfind, hd1, h2.1.symm, Or.inr ⟨rfl, h2.2.1.symm⟩⟩

theorem deleteRecording_state {lib : LibraryData} {disk : Disk} {rid : String} {dc : Bool}
    {res : Except StorageError Unit} {lib2 : LibraryData} {disk2 : Disk}
    (h : deleteRecording lib disk rid dc = some (res, lib2, disk2)) :
    lib2.recordings ⊆ lib.recordings ∧ lib2.folders = lib.folders := by
  rcases deleteRecording_cases h with ⟨-, hl⟩ | ⟨rec1, d1, -, -, -, hcase⟩
  · rw [hl]
    exact ⟨fun r hr => hr, rfl⟩
  · rcases hcase with ⟨-, hl⟩ | ⟨-, hl⟩ <;>
      (rw [hl]; exact ⟨fun r hr => (List.mem_filter.mp hr).1, rfl⟩)

theorem deleteRecording_removes_id {lib : LibraryData} {disk : Disk} {rid : String}
    {res : Except StorageError Unit} {lib2 : LibraryData} {disk2 : Disk}
    (h : deleteRecording lib disk rid true = some (res, lib2, disk2)) :
    ∀ r ∈ lib.recordings, r.id = rid → r ∉ lib2.recordings := by
  intro r hr hrid
  rcases deleteRecording_cases h with ⟨hfind, -⟩ | ⟨rec1, d1, -, -, -, hcase⟩
  · exfalso
    rw [List.find?_eq_none] at hfind
    exact hfind r hr (by simp [hrid])
  · rcases hcase with ⟨-, hl⟩ | ⟨hfalse, -⟩
    · rw [hl]
      intro hmem
      have hpred := (List.mem_filter.mp hmem).2
      simp only [Bool.not_eq_eq_eq_not, Bool.not_true] at hpred
      have hct : ((rid :: (lib.recordings.filter
          (fun r => r.parentId == some rid)).map Recording.id).contains r.id) = true :=
        List.contains_iff_exists_mem_beq.mpr ⟨r.id, by simp [hrid], by simp⟩
      rw [hpred] at hct
      exact Bool.noConfusion hct
    · exact Bool.noConfusion hfalse

theorem deleteRecsLoop_state {rs : List Recording} :
    ∀ {lib : LibraryData} {disk : Disk} {lib2 : LibraryData} {disk2 : Disk},
      deleteRecsLoop lib disk rs = some (lib2, disk2) →
      lib2.recordings ⊆ lib.recordings ∧ lib2.folders = lib.folders := by
  induction rs with
  | nil =>
    intro lib disk lib2 disk2 h
    simp only [deleteRecsLoop, Option.some.injEq, Prod.mk.injEq] at h
    rw [← h.1]
    exact ⟨fun r hr => hr, rfl⟩
  | cons s rest ih =>
    intro lib disk lib2 disk2 h
    unfold deleteRecsLoop at h
    match hd : deleteRecording lib disk s.id true with
    | none => rw [hd] at h; exact Option.noConfusion h
    | some (res1, libm, diskm) =>
      rw [hd] at h
      obtain ⟨hsub1, hf1⟩ := deleteRecording_state hd
      obtain ⟨hsub2, hf2⟩ := ih h
      exact ⟨fun r hr => hsub1 (hsub2 hr), hf2.trans hf1⟩

theorem deleteRecsLoop_removes {rs : List Recording} :
    ∀ {lib : LibraryData} {disk : Disk} {lib2 : LibraryData} {disk2 : Disk},
      deleteRecsLoop lib disk rs = some (lib2, disk2) →
      ∀ r ∈ lib.recordings, (∃ s ∈ rs, s.id = r.id) → r ∉ lib2.recordings := by
  induction rs with
  | nil =>
    intro lib disk lib2 disk2 h r hr hex
    obtain ⟨s, hs, -⟩ := hex
    cases hs
  | cons s rest ih =>
    intro lib disk lib2 disk2 h r hr hex
    unfold deleteRecsLoop at h
    match hd : deleteRecording lib disk s.id true with
    | none => rw [hd] at h; exact Option.noConfusion h
    | some (res1, libm, diskm) =>
      rw [hd] at h
      obtain ⟨s2, hs2, hs2id⟩ := hex
      rcases List.mem_cons.mp hs2 with rfl | hs2rest
      · have hout : r ∉ libm.recordings :=
          deleteRecording_removes_id hd r hr hs2id.symm
        intro hmem
        exact hout ((deleteRecsLoop_state h).1 hmem)
      · by_cases hrm : r ∈ libm.recordings
        · exact ih h r hrm ⟨s2, hs2rest, hs2id⟩
        · intro hmem
          exact hrm ((deleteRecsLoop_state h).1 hmem)

/-- Full case analysis of a completed `deleteFolder` call at positive
fuel. -/
theorem deleteFolder_cases {fuel : Nat} {lib : LibraryData} {disk : Disk} {id : String}
    {dc : Bool} {res : Except StorageError Unit} {lib2 : LibraryData} {disk2 : Disk}
    (h : deleteFolder (fuel + 1) lib disk id dc = some (res, lib2, disk2)) :
    (findFolder lib.folders id = none ∧
      res = Except.error (StorageError.FOLDER_NOT_FOUND id) ∧ lib2 = lib ∧ disk2 = disk) ∨
    (∃ folder folderPath, findFolder lib.folders id = some folder ∧
      buildFolderPath (some id) lib.folders = some folderPath ∧ res = Except.ok () ∧
      ((dc = true ∧ ∃ lib1 disk1 libm diskm,
          deleteChildFolders fuel lib disk
            (lib.folders.filter (fun f => f.parentId == some id)) = some (lib1, disk1) ∧
          deleteRecsLoop lib1 disk1
            (lib.recordings.filter (fun r => r.folderId == id)) = some (libm, diskm) ∧
          lib2 = { libm with folders := libm.folders.filter (fun f => f.id != id) }) ∨
       (dc = false ∧ ∃ libm diskm,
          moveChildFolders folderPath.dropLast folder.parentId
            { lib with recordings := lib.recordings.map (fun r =>
                if r.folderId == id
                then { r with folderId := orUncategorized folder.parentId } else r) }
            (moveRecFiles folderPath folderPath.dropLast disk
              (lib.recordings.filter (fun r => r.folderId == id)))
            (lib.folders.filter (fun f => f.parentId == some id)) = some (libm, diskm) ∧
          lib2 = { libm with folders := libm.folders.filter (fun f => f.id != id) }))) := by
  rw [deleteFolder] at h
  match hfind : findFolder lib.folders id with
  | none =>
    rw [hfind] at h
    simp only [Option.some.injEq, Prod.mk.injEq] at h
    exact Or.inl ⟨rfl, h.1.symm, h.2.1.symm, h.2.2.symm⟩
  | some folder =>
    rw [hfind] at h
    have h1 : (match buildFolderPath (some id) lib.folders with
        | none => none
        | some folderPath =>
          if dc = true then
            match deleteChildFolders fuel lib disk
                (lib.folders.filter (fun f => f.parentId == some id)) with
            | none => none
            | some (lib1, disk1) =>
              match deleteRecsLoop lib1 disk1
                  (lib.recordings.filter (fun r => r.folderId == id)) with
              | none => none
              | some (libm, diskm) =>
                some (Except.ok (),
                  { libm with folders := libm.folders.filter (fun f => f.id != id) },
                  bestEffort diskm (deleteDirectoryD diskm folderPath))
          else
            match moveChildFolders folderPath.dropLast folder.parentId
                { lib with recordings := lib.recordings.map (fun r =>
                    if r.folderId == id
                    then { r with folderId := orUncategorized folder.parentId } else r) }
                (moveRecFiles folderPath folderPath.dropLast disk
                  (lib.recordings.filter (fun r => r.folderId == id)))
                (lib.folders.filter (fun f => f.parentId == some id)) with
            | none => none
            | some (libm, diskm) =>
              some (Except.ok (),
                { libm with folders := libm.folders.filter (fun f => f.id != id) },
                bestEffort diskm (deleteDirectoryD diskm folderPath))) =
        some (res, lib2, disk2) := h
    clear h
    match hbp : buildFolderPath (some id) lib.folders with
    | none => rw [hbp] at h1; exact Option.noConfusion h1
    | some folderPath =>
      rw [hbp] at h1
      have h2 : (if dc = true then
          match deleteChildFolders fuel lib disk
              (lib.folders.filter (fun f => f.parentId == some id)) with
          | none => none
          | some (lib1, disk1) =>
            match deleteRecsLoop lib1 disk1
                (lib.recordings.filter (fun r => r.folderId == id)) with
            | none => none
            | some (libm, diskm) =>
              some (Except.ok (),
                { libm with folders := libm.folders.filter (fun f => f.id != id) },
                bestEffort diskm (deleteDirectoryD diskm folderPath))
        else
          match moveChildFolders folderPath.dropLast folder.parentId
              { lib with recordings := lib.recordings.map (fun r =>
                  if r.folderId == id
                  then { r with folderId := orUncategorized folder.parentId } else r) }
              (moveRecFiles folderPath folderPath.dropLast disk
                (lib.recordings.filter (fun r => r.folderId == id)))
              (lib.folders.filter (fun f => f.parentId == some id)) with
          | none => none
          | some (libm, diskm) =>
            some (Except.ok (),
              { libm with folders := libm.folders.filter (fun f => f.id != id) },
              bestEffort diskm (deleteDirectoryD diskm folderPath))) =
          some (res, lib2, disk2) := h1
      clear h1
      cases dc with
      | true =>
        rw [if_pos rfl] at h2
        match hcf : deleteChildFolders fuel lib disk
            (lib.folders.filter (fun f => f.parentId == some id)) with
        | none => rw [hcf] at h2; exact Option.noConfusion h2
        | some (lib1, disk1) =>
          rw [hcf] at h2
          have h3 : (match deleteRecsLoop lib1 disk1
                (lib.recordings.filter (fun r => r.folderId == id)) with
            | none => none
            | some (libm, diskm) =>
              some (Except.ok (),
                { libm with folders := libm.folders.filter (fun f => f.id != id) },
                bestEffort diskm (deleteDirectoryD diskm folderPath))) =
              some (res, lib2, disk2) := h2
          clear h2
          match hrl : deleteRecsLoop lib1 disk1
              (lib.recordings.filter (fun r => r.folderId == id)) with
          | none => rw [hrl] at h3; exact Option.noConfusion h3
          | some (libm, diskm) =>
            rw [hrl] at h3
            simp only [Option.some.injEq, Prod.mk.injEq] at h3
            exact Or.inr ⟨folder, folderPath, rfl, rfl, h3.1.symm,
              Or.inl ⟨rfl, lib1, disk1, libm, diskm, rfl, hrl, h3.2.1.symm⟩⟩
      | false =>
        rw [if_neg (by decide)] at h2
        match hmc : moveChildFolders folderPath.dropLast folder.parentId
            { lib with recordings := lib.recordings.map (fun r =>
                if r.folderId == id
                then { r with folderId := orUncategorized folder.parentId } else r) }
            (moveRecFiles folderPath folderPath.dropLast disk
              (lib.recordings.filter (fun r => r.folderId == id)))
            (lib.folders.filter (fun f => f.parentId == some id)) with
        | none => rw [hmc] at h2; exact Option.noConfusion h2
        | some (libm, diskm) =>
          rw [hmc] at h2
          simp only [Option.some.injEq, Prod.mk.injEq] at h2
          exact Or.inr ⟨folder, folderPath, rfl, rfl, h2.1.symm,
            Or.inr ⟨rfl, libm, diskm, hmc, h2.2.1.symm⟩⟩

/-- A completed `deleteFolder` call on an existing folder reports
success. -/
theorem deleteFolder_ok_of_found {fuel : Nat} {lib : LibraryData} {disk : Disk}
    {id : String} {dc : Bool} {res : Except StorageError Unit} {lib2 : LibraryData}
    {disk2 : Disk} {f : Folder}
    (h : deleteFolder fuel lib disk id dc = some (res, lib2, disk2))
    (hfind : findFolder lib.folders id = some f) : res = Except.ok () := by
  match fuel with
  | 0 => rw [deleteFolder] at h; exact Option.noConfusion h
  | fuel + 1 =>
    rcases deleteFolder_cases h with ⟨hnone, -⟩ | ⟨-, -, -, -, hok, -⟩
    · rw [hfind] at hnone; exact Option.noConfusion hnone
    · exact hok

/-- A chain that needs at least one step to hit `cid` passes through a
direct child of `cid`: a folder whose `parentId` is `cid` and which is
itself hit from the start. -/
theorem hits_through_child {folders : List Folder} {cid : String} :
    ∀ {n : Nat} {x : String}, HitsIn folders cid (some x) (n + 1) →
      ∃ c fC m, findFolder folders c = some fC ∧ fC.parentId = some cid ∧
        HitsIn folders c (some x) m := by
  intro n
  induction n with
  | zero =>
    intro x h
    obtain ⟨hxe, hxne, hrec⟩ := hitsIn_succ_inv h
    have hnp := hitsIn_zero_inv hrec
    match hfx : findFolder folders x with
    | none =>
      exfalso
      rw [show nextParent folders x = none by simp [nextParent, hfx]] at hnp
      exact Option.noConfusion hnp
    | some fX =>
      rw [show nextParent folders x = fX.parentId by simp [nextParent, hfx]] at hnp
      exact ⟨x, fX, 0, hfx, hnp, HitsIn.here hxe⟩
  | succ k ih =>
    intro x h
    obtain ⟨hxe, hxne, hrec⟩ := hitsIn_succ_inv h
    match hfx : findFolder folders x with
    | none =>
      exfalso
      rw [show nextParent folders x = none by simp [nextParent, hfx]] at hrec
      cases hrec
    | some fX =>
      rw [show nextParent folders x = fX.parentId by simp [nextParent, hfx]] at hrec
      match hpx : fX.parentId with
      | none => rw [hpx] at hrec; cases hrec
      | some x1 =>
        rw [hpx] at hrec
        obtain ⟨c, fC, m, hfc, hpc, hits⟩ := ih hrec
        by_cases hxc : x = c
        · exact ⟨c, fC, 0, hfc, hpc, by rw [← hxc]; exact HitsIn.here hxe⟩
        · refine ⟨c, fC, m + 1, hfc, hpc, HitsIn.step x m hxe hxc ?_⟩
          rw [show nextParent folders x = some x1 by simp [nextParent, hfx, hpx]]
          exact hits

/-- A hitting walk restricts to a sublist of the folders when every removed
folder is off the chain. -/
theorem hitsIn_restrict {folders2 folders : List Folder} {t : String}
    (hsub : List.Sublist folders2 folders) (hnd : (folders.map Folder.id).Nodup)
    (hsurv : ∀ g ∈ folders, g ∉ folders2 → ¬ ChainHits folders t (some g.id)) :
    ∀ {o : Option String} {n : Nat}, HitsIn folders t o n → HitsIn folders2 t o n := by
  intro o n h
  induction h with
  | here hne => exact HitsIn.here hne
  | step c n hc hne hrec ih =>
    refine HitsIn.step c n hc hne ?_
    match hfx : findFolder folders c with
    | none =>
      rw [show nextParent folders c = none by simp [nextParent, hfx]] at hrec
      cases hrec
    | some f =>
      have hf2 : f ∈ folders2 := by
        by_contra hout
        obtain ⟨hfm, hfid⟩ := findFolder_some_mem hfx
        refine hsurv f hfm hout ⟨n + 1, ?_⟩
        rw [hfid]
        refine HitsIn.step c n hc hne hrec
      have hfind2 : findFolder folders2 c = some f := findFolder_sublist_mem hsub hnd hfx hf2
      rw [show nextParent folders2 c = f.parentId by simp [nextParent, hfind2]]
      rw [show nextParent folders c = f.parentId by simp [nextParent, hfx]] at ih
      exact ih

/-- Master induction for the recursive deletion: the state only shrinks,
every folder removed lies in the deleted subtree, and - on success, from a
well-formed folder list - every recording whose folder chain hits the
target is removed. -/
theorem deleteFolder_true_master : ∀ (fuel : Nat) (lib : LibraryData) (disk : Disk)
    (cid : String) (res : Except StorageError Unit) (lib2 : LibraryData) (disk2 : Disk),
    deleteFolder fuel lib disk cid true = some (res, lib2, disk2) →
    (lib2.recordings ⊆ lib.recordings ∧ List.Sublist lib2.folders lib.folders) ∧
    (WFFolders lib.folders →
      (∀ g ∈ lib.folders, g ∉ lib2.folders → ChainHits lib.folders cid (some g.id)) ∧
      (res = Except.ok () →
        ∀ r ∈ lib.recordings, ChainHits lib.folders cid (some r.folderId) →
          r ∉ lib2.recordings)) := by
  intro fuel
  induction fuel with
  | zero =>
    intro lib disk cid res lib2 disk2 h
    rw [deleteFolder] at h
    exact Option.noConfusion h
  | succ fuel ih =>
    have loop : ∀ (cs : List Folder) (cid : String) (libc : LibraryData) (diskc : Disk)
        (lib2 : LibraryData) (disk2 : Disk),
        deleteChildFolders fuel libc diskc cs = some (lib2, disk2) →
        (lib2.recordings ⊆ libc.recordings ∧ List.Sublist lib2.folders libc.folders) ∧
        (WFFolders libc.folders →
         (∀ c ∈ cs, c ∈ libc.folders) →
         (∀ c ∈ cs, c.parentId = some cid) →
         (cs.map Folder.id).Nodup →
          (∀ g ∈ libc.folders, g ∉ lib2.folders →
            ∃ c ∈ cs, ChainHits libc.folders c.id (some g.id)) ∧
          (∀ c ∈ cs, ∀ r ∈ libc.recordings,
            ChainHits libc.folders c.id (some r.folderId) → r ∉ lib2.recordings)) := by
      intro cs
      induction cs with
      | nil =>
        intro cid libc diskc lib2 disk2 h
        rw [deleteChildFolders] at h
        simp only [Option.some.injEq, Prod.mk.injEq] at h
        rw [← h.1]
        refine ⟨⟨fun r hr => hr, List.Sublist.refl _⟩, ?_⟩
        intro _ _ _ _
        exact ⟨fun g hg hout => absurd hg hout,
          fun c hc => absurd hc (List.not_mem_nil c)⟩
      | cons c rest ihcs =>
        intro cid libc diskc lib2 disk2 h
        rw [deleteChildFolders] at h
        match hdf : deleteFolder fuel libc diskc c.id true with
        | none => rw [hdf] at h; exact Option.noConfusion h
        | some (res1, libm, diskm) =>
          rw [hdf] at h
          have h2 : deleteChildFolders fuel libm diskm rest = some (lib2, disk2) := h
          clear h
          have hmaster := ih libc diskc c.id res1 libm diskm hdf
          have hrest := ihcs cid libm diskm lib2 disk2 h2
          have hstate : lib2.recordings ⊆ libc.recordings ∧
              List.Sublist lib2.folders libc.folders :=
            ⟨fun r hr => hmaster.1.1 (hrest.1.1 hr), hrest.1.2.trans hmaster.1.2⟩
          refine ⟨hstate, ?_⟩
          intro hwf hsub hpar hnd
          have hwfm : WFFolders libm.folders := wfFolders_sublist hmaster.1.2 hwf
          have hcin : c ∈ libc.folders := hsub c (List.mem_cons_self _ _)
          have hcfind : findFolder libc.folders c.id = some c :=
            findFolder_self_of_nodup hwf.1 hcin
          have hres1 : res1 = Except.ok () := deleteFolder_ok_of_found hdf hcfind
          simp only [List.map_cons, List.nodup_cons] at hnd
          have hsurvive : ∀ c2 ∈ rest, c2 ∈ libm.folders := by
            intro c2 hc2
            by_contra hout
            have hc2in : c2 ∈ libc.folders := hsub c2 (List.mem_cons_of_mem _ hc2)
            have hrm := (hmaster.2 hwf).1 c2 hc2in hout
            have htriv : ChainHits libc.folders c2.id (some c2.id) :=
              ⟨0, HitsIn.here (hwf.2.2 c2 hc2in)⟩
            have heq := sibling_separation hwf hcin hc2in
              (hpar c (List.mem_cons_self _ _)) (hpar c2 (List.mem_cons_of_mem _ hc2))
              hrm htriv
            exact hnd.1 (by rw [heq]; exact List.mem_map.mpr ⟨c2, hc2, rfl⟩)
          have hrest2 := hrest.2 hwfm hsurvive
            (fun c2 hc2 => hpar c2 (List.mem_cons_of_mem _ hc2)) hnd.2
          constructor
          · intro g hg hout
            by_cases hgm : g ∈ libm.folders
            · obtain ⟨c2, hc2, hch⟩ := hrest2.1 g hgm hout
              obtain ⟨n, hn⟩ := hch
              exact ⟨c2, List.mem_cons_of_mem _ hc2,
                ⟨n, hitsIn_sublist_lift hmaster.1.2 hwf.1 hn⟩⟩
            · exact ⟨c, List.mem_cons_self _ _, (hmaster.2 hwf).1 g hg hgm⟩
          · intro c2 hc2 r hr hch
            rcases List.mem_cons.mp hc2 with rfl | hc2r
            · have hrem := (hmaster.2 hwf).2 hres1 r hr hch
              intro hmem
              exact hrem (hrest.1.1 hmem)
            · by_cases hrm2 : r ∈ libm.recordings
              · obtain ⟨n, hn⟩ := hch
                have hc2in : c2 ∈ libc.folders := hsub c2 (List.mem_cons_of_mem _ hc2r)
                have hsurvchain : ∀ g ∈ libc.folders, g ∉ libm.folders →
                    ¬ ChainHits libc.folders c2.id (some g.id) := by
                  intro g hg hout hgch
                  have hgc := (hmaster.2 hwf).1 g hg hout
                  have heq := sibling_separation hwf hcin hc2in
                    (hpar c (List.mem_cons_self _ _))
                    (hpar c2 (List.mem_cons_of_mem _ hc2r)) hgc hgch
                  exact hnd.1 (by rw [heq]; exact List.mem_map.mpr ⟨c2, hc2r, rfl⟩)
                have hn2 := hitsIn_restrict hmaster.1.2 hwf.1 hsurvchain hn
                exact hrest2.2 c2 hc2r r hrm2 ⟨n, hn2⟩
              · intro hmem
                exact hrm2 (hrest.1.1 hmem)
    intro lib disk cid res lib2 disk2 h
    rcases deleteFolder_cases h with ⟨hnone, hres, hl, -⟩ |
      ⟨folder, folderPath, hfind, hbp, hres, hcase⟩
    · rw [hl]
      refine ⟨⟨fun r hr => hr, List.Sublist.refl _⟩, ?_⟩
      intro hwf
      refine ⟨fun g hg hout => absurd hg hout, ?_⟩
      intro hok
      rw [hres] at hok
      exact Except.noConfusion hok
    · rcases hcase with ⟨-, lib1, disk1, libm, diskm, hcf, hrl, hl2⟩ | ⟨hfalse, -⟩
      · have hloop := loop (lib.folders.filter (fun f => f.parentId == some cid))
          cid lib disk lib1 disk1 hcf
        have hrlstate := deleteRecsLoop_state hrl
        have hstate : lib2.recordings ⊆ lib.recordings ∧
            List.Sublist lib2.folders lib.folders := by
          constructor
          · intro r hr
            rw [hl2] at hr
            exact hloop.1.1 (hrlstate.1 hr)
          · rw [hl2]
            refine List.Sublist.trans (List.filter_sublist _) ?_
            rw [hrlstate.2]
            exact hloop.1.2
        refine ⟨hstate, ?_⟩
        intro hwf
        have hsub : ∀ c ∈ lib.folders.filter (fun f => f.parentId == some cid),
            c ∈ lib.folders := fun c hc => (List.mem_filter.mp hc).1
        have hpar : ∀ c ∈ lib.folders.filter (fun f => f.parentId == some cid),
            c.parentId = some cid := fun c hc => by
          simpa using (List.mem_filter.mp hc).2
        have hndcs : ((lib.folders.filter
            (fun f => f.parentId == some cid)).map Folder.id).Nodup :=
          ((List.filter_sublist _).map Folder.id).nodup hwf.1
        have hloop2 := hloop.2 hwf hsub hpar hndcs
        have hcidne : cid ≠ "" := by
          obtain ⟨hfm, hfid⟩ := findFolder_some_mem hfind
          rw [← hfid]
          exact hwf.2.2 folder hfm
        constructor
        · intro g hg hout
          by_cases hg1 : g ∈ lib1.folders
          · have hid : g.id = cid := by
              by_contra hne2
              refine hout ?_
              rw [hl2]
              refine List.mem_filter.mpr ⟨?_, by simpa using hne2⟩
              rw [hrlstate.2]
              exact hg1
            exact ⟨0, by rw [hid]; exact HitsIn.here hcidne⟩
          · obtain ⟨c, hcmem, hch⟩ := hloop2.1 g hg hg1
            obtain ⟨n, hn⟩ := hch
            have hcin := hsub c hcmem
            have hcne : c.id ≠ cid := by
              intro heq
              exact no_self_parent hwf hcin (by rw [hpar c hcmem, heq])
            refine chainHits_compose hn
              ⟨1, HitsIn.step c.id 0 (hwf.2.2 c hcin) hcne ?_⟩ hcidne
            rw [show nextParent lib.folders c.id = some cid by
              simp [nextParent, findFolder_self_of_nodup hwf.1 hcin, hpar c hcmem]]
            exact HitsIn.here hcidne
        · intro hok r hr hch
          obtain ⟨n, hn⟩ := hch
          match n, hn with
          | 0, hn =>
            have hfid := hitsIn_zero_inv hn
            simp only [Option.some.injEq] at hfid
            by_cases hr1 : r ∈ lib1.recordings
            · have hrem := deleteRecsLoop_removes hrl r hr1
                ⟨r, List.mem_filter.mpr ⟨hr, by simp [hfid]⟩, rfl⟩
              intro hmem
              rw [hl2] at hmem
              exact hrem hmem
            · intro hmem
              rw [hl2] at hmem
              exact hr1 (hrlstate.1 hmem)
          | n + 1, hn =>
            obtain ⟨c, fC, m, hfc, hpc, hits⟩ := hits_through_child hn
            obtain ⟨hfcm, hfcid⟩ := findFolder_some_mem hfc
            have hfcs : fC ∈ lib.folders.filter (fun f => f.parentId == some cid) :=
              List.mem_filter.mpr ⟨hfcm, by simp [hpc]⟩
            have hrem := hloop2.2 fC hfcs r hr (by rw [hfcid]; exact ⟨m, hits⟩)
            intro hmem
            rw [hl2] at hmem
            exact hrem (hrlstate.1 hmem)
      · exact Bool.noConfusion hfalse

theorem map_id_filter_ne (folders : List Folder) (id : String) :
    (folders.filter (fun f => f.id != id)).map Folder.id =
      (folders.map Folder.id).filter (fun x => x != id) := by
  induction folders with
  | nil => rfl
  | cons f rest ih =>
    cases hf : (f.id != id) <;> simp [List.filter_cons, hf, ih]

/-- What the child-relocation loop of the non-recursive folder deletion
does to the library: it leaves the recordings alone, keeps the folder ids
(in order), keeps every folder not named in the worklist, and - for a
well-formed list containing the worklist - re-points every worklist folder
to the new parent. -/
theorem moveChildFolders_spec : ∀ (cs : List Folder) {pp : List String}
    {pid : Option String} {lib : LibraryData} {disk : Disk} {lib2 : LibraryData}
    {disk2 : Disk}, moveChildFolders pp pid lib disk cs = some (lib2, disk2) →
    lib2.recordings = lib.recordings ∧
    lib2.folders.map Folder.id = lib.folders.map Folder.id ∧
    (∀ g ∈ lib.folders, g.id ∉ cs.map Folder.id → g ∈ lib2.folders) ∧
    ((lib.folders.map Folder.id).Nodup → (∀ c ∈ cs, c ∈ lib.folders) →
      (cs.map Folder.id).Nodup →
      ∀ c ∈ cs, ({ c with parentId := pid } : Folder) ∈ lib2.folders) := by
  intro cs
  induction cs with
  | nil =>
    intro pp pid lib disk lib2 disk2 h
    simp only [moveChildFolders, Option.some.injEq, Prod.mk.injEq] at h
    rw [← h.1]
    exact ⟨rfl, rfl, fun g hg _ => hg, fun _ _ _ c hc => absurd hc (List.not_mem_nil c)⟩
  | cons c rest ih =>
    intro pp pid lib disk lib2 disk2 h
    rw [moveChildFolders] at h
    match hbp : buildFolderPath (some c.id) lib.folders with
    | none => rw [hbp] at h; exact Option.noConfusion h
    | some childPath =>
      rw [hbp] at h
      have h2 : moveChildFolders pp pid
          { lib with folders := setParent lib.folders c.id pid }
          (bestEffort disk (moveDirectoryD disk childPath pp)) rest =
          some (lib2, disk2) := h
      clear h
      have hrec := ih h2
      refine ⟨hrec.1, hrec.2.1.trans (setParent_map_id lib.folders c.id pid), ?_, ?_⟩
      · intro g hg hout
        simp only [List.map_cons, List.mem_cons, not_or] at hout
        exact hrec.2.2.1 g (setParent_mem_ne hg hout.1) hout.2
      · intro hnd hmem hndcs
        have hnd2 : (({ lib with folders := setParent lib.folders c.id pid } :
            LibraryData).folders.map Folder.id).Nodup := by
          rw [show ({ lib with folders := setParent lib.folders c.id pid } :
              LibraryData).folders = setParent lib.folders c.id pid from rfl,
            setParent_map_id]
          exact hnd
        simp only [List.map_cons, List.nodup_cons] at hndcs
        intro c2 hc2
        rcases List.mem_cons.mp hc2 with rfl | hc2r
        · have hu : ({ c2 with parentId := pid } : Folder) ∈
              setParent lib.folders c2.id pid :=
            setParent_mem_self hnd (hmem c2 (List.mem_cons_self _ _))
          exact hrec.2.2.1 _ hu hndcs.1
        · have hmem2 : ∀ c3 ∈ rest, c3 ∈ ({ lib with
              folders := setParent lib.folders c.id pid } : LibraryData).folders := by
            intro c3 hc3
            have hne : c3.id ≠ c.id := by
              intro heq
              exact hndcs.1 (heq ▸ List.mem_map.mpr ⟨c3, hc3, rfl⟩)
            exact setParent_mem_ne (hmem c3 (List.mem_cons_of_mem _ hc3)) hne
          exact hrec.2.2.2 hnd2 hmem2 hndcs.2 c2 hc2r

/-- What a completed `deleteFolder(id, deleteChildren = false)` call on an
existing folder does: success, every contained recording kept under the
`||`-defaulted parent id, all other folders kept (the target removed), and
direct children re-pointed to the deleted folder's stored `parentId`. -/
theorem deleteFolder_false_spec {fuel : Nat} {lib : LibraryData} {disk : Disk}
    {id : String} {folder : Folder} {res : Except StorageError Unit}
    {lib2 : LibraryData} {disk2 : Disk}
    (hfind : findFolder lib.folders id = some folder)
    (h : deleteFolder fuel lib disk id false = some (res, lib2, disk2)) :
    res = Except.ok () ∧
    lib2.recordings = lib.recordings.map (fun r =>
      if r.folderId == id
      then { r with folderId := orUncategorized folder.parentId } else r) ∧
    lib2.folders.map Folder.id = (lib.folders.map Folder.id).filter (fun x => x != id) ∧
    ((lib.folders.map Folder.id).Nodup →
      ∀ c ∈ lib.folders, c.parentId = some id → c.id ≠ id →
        ({ c with parentId := folder.parentId } : Folder) ∈ lib2.folders) := by
  match fuel with
  | 0 => rw [deleteFolder] at h; exact Option.noConfusion h
  | fuel + 1 =>
    rcases deleteFolder_cases h with ⟨hnone, -⟩ |
      ⟨folder2, folderPath, hfind2, hbp, hres, hcase⟩
    · rw [hfind] at hnone; exact Option.noConfusion hnone
    · rw [hfind] at hfind2
      have heqf : folder = folder2 := Option.some.inj hfind2
      subst heqf
      rcases hcase with ⟨htrue, -⟩ | ⟨-, libm, diskm, hmc, hl2⟩
      · exact Bool.noConfusion htrue
      · have hmcs := moveChildFolders_spec _ hmc
        refine ⟨hres, ?_, ?_, ?_⟩
        · rw [hl2]
          exact hmcs.1
        · rw [hl2]
          rw [show ({ libm with folders := libm.folders.filter (fun f => f.id != id) } :
              LibraryData).folders = libm.folders.filter (fun f => f.id != id) from rfl,
            map_id_filter_ne, hmcs.2.1]
        · intro hnd c hc hcp hcne
          have hcs : c ∈ lib.folders.filter (fun f => f.parentId == some id) :=
            List.mem_filter.mpr ⟨hc, by simp [hcp]⟩
          have hndcs : ((lib.folders.filter
              (fun f => f.parentId == some id)).map Folder.id).Nodup :=
            ((List.filter_sublist _).map Folder.id).nodup hnd
          have hu := hmcs.2.2.2 hnd
            (fun c2 hc2 => (List.mem_filter.mp hc2).1) hndcs c hcs
          rw [hl2]
          exact List.mem_filter.mpr ⟨hu, by simpa using hcne⟩

theorem deleteFolder_parent_cx :
    hollowFolder.parentId = some "" ∧
    deleteFolder 1 ⟨[recDel], [hollowFolder]⟩ emptyDisk "d" false =
      some (Except.ok (),
        ⟨[{ recDel with folderId := "uncategorized" }], []⟩, emptyDisk) ∧
    ({ recDel with folderId := "" } : Recording) ∉
      ([{ recDel with folderId := "uncategorized" }] : List Recording) := by
  refine ⟨by decide, ?_, by decide⟩
  simp [deleteFolder, findFolder, buildFolderPath, walkUp, nextParent, strTruthy,
    moveRecFiles, moveChildFolders, deleteRecsLoop, moveFileD, readFileD, findFile,
    dirExists, bestEffort, deleteDirectoryD, orUncategorized, hollowFolder, recDel,
    emptyDisk, List.filter, List.find?]

/-- C3: for a library whose folder list contains a folder with the given
id, a completed `deleteFolder(id, deleteChildren = false)` call succeeds,
keeps every recording under its own id - those filed under the deleted
folder re-pointed to the folder's stored parent id, with the sentinel
`"uncategorized"` substituted when that parent is `null` or the empty
string - removes exactly the target folder from the folder list (all other
folder ids kept in order), and, when folder ids are unique, re-points
every direct child folder to the deleted folder's stored parent id; a
completed `deleteFolder(id, deleteChildren = true)` call on a well-formed
folder list removes every subtree recording - every recording whose
`folderId` parent chain reaches the deleted folder - from the library
entirely. -/
theorem deleteFolder_spec (fuel : Nat) (lib : LibraryData) (disk : Disk) (id : String)
    (folder : Folder) (res : Except StorageError Unit) (lib2 : LibraryData)
    (disk2 : Disk) (hfind : findFolder lib.folders id = some folder) :
    (deleteFolder fuel lib disk id false = some (res, lib2, disk2) →
      res = Except.ok () ∧
      lib2.recordings = lib.recordings.map (fun r =>
        if r.folderId == id
        then { r with folderId := orUncategorized folder.parentId } else r) ∧
      (∀ r ∈ lib.recordings, r.folderId = id →
        ({ r with folderId := orUncategorized folder.parentId } : Recording) ∈
          lib2.recordings) ∧
      lib2.folders.map Folder.id =
        (lib.folders.map Folder.id).filter (fun x => x != id) ∧
      ((lib.folders.map Folder.id).Nodup →
        ∀ c ∈ lib.folders, c.parentId = some id → c.id ≠ id →
          ({ c with parentId := folder.parentId } : Folder) ∈ lib2.folders)) ∧
    (deleteFolder fuel lib disk id true = some (res, lib2, disk2) →
      WFFolders lib.folders →
      ∀ r ∈ lib.recordings, ChainHits lib.folders id (some r.folderId) →
        r ∉ lib2.recordings) := by
  constructor
  · intro h
    have hf := deleteFolder_false_spec hfind h
    refine ⟨hf.1, hf.2.1, ?_, hf.2.2.1, hf.2.2.2⟩
    intro r hr hrid
    rw [hf.2.1]
    exact List.mem_map.mpr ⟨r, hr, by simp [hrid]⟩
  · intro h hwf
    exact ((deleteFolder_true_master fuel lib disk id res lib2 disk2 h).2 hwf).2
      (deleteFolder_ok_of_found h hfind)

theorem deleteFolder_spec_witness :
    findFolder demoFolders "t" = some trapFolder ∧
    (∃ lib2 disk2, deleteFolder 2 ⟨[recT], demoFolders⟩ emptyDisk "t" false =
        some (Except.ok (), lib2, disk2) ∧
      ({ recT with folderId := "b" } : Recording) ∈ lib2.recordings ∧
      lib2.folders.map Folder.id = ["b"]) ∧
    (∃ lib2 disk2, deleteFolder 2 ⟨[recT], demoFolders⟩ emptyDisk "b" true =
        some (Except.ok (), lib2, disk2) ∧ recT ∉ lib2.recordings) := by
  have hev1 : deleteFolder 2 ⟨[recT], demoFolders⟩ emptyDisk "t" false =
      some (Except.ok (),
        ⟨[{ recT with folderId := "b" }], [beatsFolder]⟩, emptyDisk) := by
    simp [deleteFolder, findFolder, buildFolderPath, walkUp, nextParent, strTruthy,
      moveRecFiles, moveChildFolders, deleteRecsLoop, moveFileD, readFileD, findFile,
      dirExists, bestEffort, deleteDirectoryD, orUncategorized, demoFolders,
      beatsFolder, trapFolder, recT, emptyDisk, List.filter, List.find?]
  have hev2 : deleteFolder 2 ⟨[recT], demoFolders⟩ emptyDisk "b" true =
      some (Except.ok (), ⟨[], [ ]⟩, emptyDisk) := by
    simp [deleteFolder, deleteChildFolders, findFolder, buildFolderPath, walkUp,
      nextParent, strTruthy, deleteRecsLoop, deleteRecording, deleteRecordingFileD,
      findActualPath, scanFoldersExists, fileExistsD, findFile, dirExists, bestEffort,
      deleteDirectoryD, deleteFileD, deleteCropFiles, getRecordingDiskPath,
      demoFolders, beatsFolder, trapFolder, recT, emptyDisk, List.filter, List.find?]
  refine ⟨by decide, ⟨_, _, hev1, ?_, by decide⟩, ⟨_, _, hev2, ?_⟩⟩
  · have h := (deleteFolder_spec 2 ⟨[recT], demoFolders⟩ emptyDisk "t" trapFolder
      (Except.ok ()) ⟨[{ recT with folderId := "b" }], [beatsFolder]⟩ emptyDisk
      (by decide)).1 hev1
    exact h.2.2.1 recT (by decide) (by decide)
  · have hwfdemo : WFFolders demoFolders := ⟨by decide, acyclic_demoFolders, by decide⟩
    have hchain : ChainHits demoFolders "b" (some recT.folderId) :=
      ⟨1, HitsIn.step "t" 0 (by decide) (by decide) (HitsIn.here (by decide))⟩
    exact (deleteFolder_spec 2 ⟨[recT], demoFolders⟩ emptyDisk "b" beatsFolder
      (Except.ok ()) ⟨[], []⟩ emptyDisk (by decide)).2 hev2 hwfdemo recT
      (by decide) hchain

theorem jsMapGet_set_eq (m : List (String × String)) (k v : String) :
    jsMapGet (jsMapSet m k v) k = some v := by
  induction m with
  | nil => simp [jsMapSet, jsMapGet, List.find?]
  | cons q rest ih =>
    by_cases hk : q.1 = k
    · simp [jsMapSet, hk, jsMapGet, List.find?]
    · simp only [jsMapSet]
      rw [if_neg (by exact hk)]
      unfold jsMapGet at ih ⊢
      rw [List.find?, show (q.1 == k) = false by simpa using hk]
      exact ih

theorem jsMapGet_set_ne (m : List (String × String)) (k v k2 : String) (h : k2 ≠ k) :
    jsMapGet (jsMapSet m k v) k2 = jsMapGet m k2 := by
  induction m with
  | nil =>
    simp [jsMapSet, jsMapGet, List.find?,
      show (k == k2) = false by simpa using fun hc => h hc.symm]
  | cons q rest ih =>
    by_cases hk : q.1 = k
    · have hq2 : (q.1 == k2) = false := by
        simp only [beq_eq_false_iff_ne, ne_eq]
        intro hc
        exact h (by rw [← hc, hk])
      simp [jsMapSet, hk, jsMapGet, List.find?, hq2,
        show (k == k2) = false by simpa using fun hc => h hc.symm]
    · cases hq : (q.1 == k2) with
      | true => simp [jsMapSet, hk, jsMapGet, List.find?, hq]
      | false =>
        simp only [jsMapSet]
        rw [if_neg hk]
        simp only [jsMapGet, List.find?, hq] at ih ⊢
        exact ih

theorem newPathMapLoop_stable {all : List Folder} {fuel : Nat} :
    ∀ {fs : List Folder} {m0 m : List (String × String)} {p : String},
      newPathMapLoop all fuel m0 fs = some m →
      (∀ g ∈ fs, getPath g all fuel ≠ some p) →
      jsMapGet m p = jsMapGet m0 p := by
  intro fs
  induction fs with
  | nil =>
    intro m0 m p h hng
    simp only [newPathMapLoop, Option.some.injEq] at h
    rw [← h]
  | cons f rest ih =>
    intro m0 m p h hng
    rw [newPathMapLoop] at h
    match hgp : getPath f all fuel with
    | none => rw [hgp] at h; exact Option.noConfusion h
    | some pf =>
      rw [hgp] at h
      have hstep := ih h (fun g hg => hng g (List.mem_cons_of_mem _ hg))
      rw [hstep, jsMapGet_set_ne]
      intro hc
      exact hng f (List.mem_cons_self _ _) (by rw [hgp, hc])

/-- After the first `buildFolderIdMap` loop, a path all of whose holders
share one id is bound to that id, provided some list member holds it or the
binding was present already. -/
theorem newPathMapLoop_get {all : List Folder} {fuel : Nat} {p v : String} :
    ∀ {fs : List Folder} {m0 m : List (String × String)},
      newPathMapLoop all fuel m0 fs = some m →
      (∀ g ∈ fs, getPath g all fuel = some p → g.id = v) →
      (jsMapGet m0 p = some v ∨ ∃ g ∈ fs, getPath g all fuel = some p) →
      jsMapGet m p = some v := by
  intro fs
  induction fs with
  | nil =>
    intro m0 m h hval hsrc
    simp only [newPathMapLoop, Option.some.injEq] at h
    rcases hsrc with h0 | ⟨g, hg, -⟩
    · rw [← h]; exact h0
    · cases hg
  | cons f rest ih =>
    intro m0 m h hval hsrc
    rw [newPathMapLoop] at h
    match hgp : getPath f all fuel with
    | none => rw [hgp] at h; exact Option.noConfusion h
    | some pf =>
      rw [hgp] at h
      by_cases hpp : pf = p
      · subst hpp
        have hfid : f.id = v := hval f (List.mem_cons_self _ _) hgp
        refine ih h (fun g hg hgpth => hval g (List.mem_cons_of_mem _ hg) hgpth) ?_
        exact Or.inl (by rw [jsMapGet_set_eq, hfid])
      · refine ih h (fun g hg hgpth => hval g (List.mem_cons_of_mem _ hg) hgpth) ?_
        rcases hsrc with h0 | ⟨g, hg, hgpth⟩
        · exact Or.inl (by rw [jsMapGet_set_ne _ _ _ _ (fun hc => hpp hc.symm)]; exact h0)
        · rcases List.mem_cons.mp hg with rfl | hgr
          · exact absurd (by rw [hgp] at hgpth; exact Option.some.inj hgpth) hpp
          · exact Or.inr ⟨g, hgr, hgpth⟩

theorem folderIdMapLoop_stable {allOld : List Folder} {fuel : Nat}
    {npm : List (String × String)} {k : String} :
    ∀ {fs : List Folder} {m0 m : List (String × String)},
      folderIdMapLoop allOld fuel npm m0 fs = some m →
      (∀ g ∈ fs, g.id = k → ∀ pg, getPath g allOld fuel = some pg →
        jsMapGet npm pg = none ∨ jsMapGet npm pg = some "") →
      jsMapGet m k = jsMapGet m0 k := by
  intro fs
  induction fs with
  | nil =>
    intro m0 m h hfalsy
    simp only [folderIdMapLoop, Option.some.injEq] at h
    rw [← h]
  | cons f rest ih =>
    intro m0 m h hfalsy
    rw [folderIdMapLoop] at h
    match hgp : getPath f allOld fuel with
    | none => rw [hgp] at h; exact Option.noConfusion h
    | some pf =>
      rw [hgp] at h
      have h1 : (match jsMapGet npm pf with
          | none => folderIdMapLoop allOld fuel npm m0 rest
          | some newId =>
            if newId = "" then folderIdMapLoop allOld fuel npm m0 rest
            else folderIdMapLoop allOld fuel npm (jsMapSet m0 f.id newId) rest) =
          some m := h
      clear h
      match hnp : jsMapGet npm pf with
      | none =>
        rw [hnp] at h1
        exact ih h1 (fun g hg => hfalsy g (List.mem_cons_of_mem _ hg))
      | some nid =>
        rw [hnp] at h1
        have h2 : (if nid = "" then folderIdMapLoop allOld fuel npm m0 rest
            else folderIdMapLoop allOld fuel npm (jsMapSet m0 f.id nid) rest) =
            some m := h1
        clear h1
        by_cases he : nid = ""
        · rw [if_pos he] at h2
          exact ih h2 (fun g hg => hfalsy g (List.mem_cons_of_mem _ hg))
        · rw [if_neg he] at h2
          have hne : f.id ≠ k := by
            intro hc
            rcases hfalsy f (List.mem_cons_self _ _) hc pf hgp with h0 | h0 <;>
              rw [hnp] at h0
            · exact Option.noConfusion h0
            · exact he (Option.some.inj h0)
          rw [ih h2 (fun g hg => hfalsy g (List.mem_cons_of_mem _ hg)),
            jsMapGet_set_ne _ _ _ _ (fun hc => hne hc.symm)]

/-- After the second `buildFolderIdMap` loop, an old folder with distinct
id whose path is bound to a truthy new id is mapped to it. -/
theorem folderIdMapLoop_get {allOld : List Folder} {fuel : Nat}
    {npm : List (String × String)} {p nid : String} :
    ∀ {fs : List Folder} {m0 m : List (String × String)} {of : Folder},
      folderIdMapLoop allOld fuel npm m0 fs = some m →
      of ∈ fs → (fs.map Folder.id).Nodup →
      getPath of allOld fuel = some p →
      jsMapGet npm p = some nid → nid ≠ "" →
      jsMapGet m of.id = some nid := by
  intro fs
  induction fs with
  | nil =>
    intro m0 m of h hof
    cases hof
  | cons f rest ih =>
    intro m0 m of h hof hnd hgp hnp hne
    simp only [List.map_cons, List.nodup_cons] at hnd
    rw [folderIdMapLoop] at h
    rcases List.mem_cons.mp hof with rfl | hofr
    · rw [hgp] at h
      have h1 : (match jsMapGet npm p with
          | none => folderIdMapLoop allOld fuel npm m0 rest
          | some newId =>
            if newId = "" then folderIdMapLoop allOld fuel npm m0 rest
            else folderIdMapLoop allOld fuel npm (jsMapSet m0 of.id newId) rest) =
          some m := h
      clear h
      rw [hnp] at h1
      have h2 : (if nid = "" then folderIdMapLoop allOld fuel npm m0 rest
          else folderIdMapLoop allOld fuel npm (jsMapSet m0 of.id nid) rest) =
          some m := h1
      clear h1
      rw [if_neg hne] at h2
      have hstable := folderIdMapLoop_stable h2
        (fun g hg hgid => absurd (List.mem_map.mpr ⟨g, hg, hgid⟩) hnd.1)
      rw [hstable, jsMapGet_set_eq]
    · match hgpf : getPath f allOld fuel with
      | none => rw [hgpf] at h; exact Option.noConfusion h
      | some pf =>
        rw [hgpf] at h
        have h1 : (match jsMapGet npm pf with
            | none => folderIdMapLoop allOld fuel npm m0 rest
            | some newId =>
              if newId = "" then folderIdMapLoop allOld fuel npm m0 rest
              else folderIdMapLoop allOld fuel npm (jsMapSet m0 f.id newId) rest) =
            some m := h
        clear h
        match hnpf : jsMapGet npm pf with
        | none => exact ih (hnpf ▸ h1) hofr hnd.2 hgp hnp hne
        | some nid2 =>
          rw [hnpf] at h1
          have h2 : (if nid2 = "" then folderIdMapLoop allOld fuel npm m0 rest
              else folderIdMapLoop allOld fuel npm (jsMapSet m0 f.id nid2) rest) =
              some m := h1
          clear h1
          by_cases he : nid2 = ""
          · rw [if_pos he] at h2
            exact ih h2 hofr hnd.2 hgp hnp hne
          · rw [if_neg he] at h2
            exact ih h2 hofr hnd.2 hgp hnp hne

/-- `buildFolderIdMap` matches folders on their full name path: an old
folder whose path is held by exactly one new folder (with a truthy id) is
mapped to that folder's id, and an old folder whose path no new folder
holds is left unmapped. -/
theorem buildFolderIdMap_matches {oldFolders newFolders : List Folder} {fuel : Nat}
    {m : List (String × String)}
    (h : buildFolderIdMap oldFolders newFolders fuel = some m)
    (hnodup : (oldFolders.map Folder.id).Nodup) :
    (∀ of ∈ oldFolders, ∀ nf ∈ newFolders, ∀ p,
      getPath of oldFolders fuel = some p → getPath nf newFolders fuel = some p →
      (∀ g ∈ newFolders, g ≠ nf → getPath g newFolders fuel ≠ some p) →
      nf.id ≠ "" → jsMapGet m of.id = some nf.id) ∧
    (∀ of ∈ oldFolders, ∀ p, getPath of oldFolders fuel = some p →
      (∀ g ∈ newFolders, getPath g newFolders fuel ≠ some p) →
      jsMapGet m of.id = none) := by
  unfold buildFolderIdMap at h
  match hnp : newPathMapLoop newFolders fuel [] newFolders with
  | none => rw [hnp] at h; exact Option.noConfusion h
  | some npm =>
    rw [hnp] at h
    have h1 : folderIdMapLoop oldFolders fuel npm [] oldFolders = some m := h
    clear h
    constructor
    · intro of hof nf hnf p hofp hnfp huniq hne
      have hget : jsMapGet npm p = some nf.id := by
        refine newPathMapLoop_get hnp ?_ (Or.inr ⟨nf, hnf, hnfp⟩)
        intro g hg hgp
        by_cases hgnf : g = nf
        · rw [hgnf]
        · exact absurd hgp (huniq g hg hgnf)
      exact folderIdMapLoop_get h1 hof hnodup hofp hget hne
    · intro of hof p hofp hnone
      have hget : jsMapGet npm p = none := by
        rw [newPathMapLoop_stable hnp hnone]
        rfl
      have hstable := folderIdMapLoop_stable h1 (fun g hg hgid pg hpg => by
        have hgof : g = of := List.inj_on_of_nodup_map hnodup hg hof hgid
        subst hgof
        rw [hpg] at hofp
        rw [Option.some.inj hofp]
        exact Or.inl hget)
      rw [hstable]
      rfl

/-- Every id in the migrated output is the id of an input recording. -/
theorem migrateRecordings_ids_sub (m : List (String × String))
    (blobs : String → Option Blob) :
    ∀ (recs : List Recording) (x : String),
      x ∈ (migrateRecordings m blobs recs).map Recording.id →
      x ∈ recs.map Recording.id := by
  intro recs
  induction recs with
  | nil => intro x hx; cases hx
  | cons r rest ih =>
    intro x hx
    rw [migrateRecordings] at hx
    match hb : blobs r.id with
    | none =>
      rw [hb] at hx
      exact List.mem_cons_of_mem _ (ih x hx)
    | some b =>
      rw [hb] at hx
      simp only [List.map_cons, List.mem_cons] at hx ⊢
      rcases hx with hx | hx
      · exact Or.inl hx
      · exact Or.inr (ih x hx)

theorem migrateRecordings_keeps (m : List (String × String))
    (blobs : String → Option Blob) :
    ∀ (recs : List Recording), ∀ rec ∈ recs, blobs rec.id ≠ none →
      ({ rec with folderId := remapFolderId m rec.folderId } : Recording) ∈
        migrateRecordings m blobs recs := by
  intro recs
  induction recs with
  | nil => intro rec hrec; cases hrec
  | cons r rest ih =>
    intro rec hrec hb
    rw [migrateRecordings]
    rcases List.mem_cons.mp hrec with rfl | hrr
    · match hbr : blobs rec.id with
      | none => exact absurd hbr hb
      | some b => exact List.mem_cons_self _ _
    · match hbr : blobs r.id with
      | none => exact ih rec hrr hb
      | some b => exact List.mem_cons_of_mem _ (ih rec hrr hb)

theorem migrateRecordings_skips (m : List (String × String))
    (blobs : String → Option Blob) :
    ∀ (recs : List Recording), (recs.map Recording.id).Nodup →
      ∀ rec ∈ recs, blobs rec.id = none →
        rec.id ∉ (migrateRecordings m blobs recs).map Recording.id := by
  intro recs
  induction recs with
  | nil => intro _ rec hrec; cases hrec
  | cons r rest ih =>
    intro hnd rec hrec hb
    simp only [List.map_cons, List.nodup_cons] at hnd
    rw [migrateRecordings]
    rcases List.mem_cons.mp hrec with rfl | hrr
    · rw [hb]
      intro hmem
      exact hnd.1 (migrateRecordings_ids_sub m blobs rest rec.id hmem)
    · match hbr : blobs r.id with
      | none => exact ih hnd.2 rec hrr hb
      | some b =>
        simp only [List.map_cons, List.mem_cons, not_or]
        refine ⟨?_, ih hnd.2 rec hrr hb⟩
        intro hc
        exact hnd.1 (hc ▸ List.mem_map.mpr ⟨rec, hrr, rfl⟩)

/-- C8: the old-id to new-id folder map of the migration is built by
matching folders on their full name path - the `"/"`-joined names from
root to the folder - between the freshly created folder list and the
legacy list: a legacy folder whose path is held by exactly one new folder
(with a truthy id) maps to that folder's new id, and one whose path no new
folder holds stays unmapped; each legacy recording with an absent blob is
skipped while the loop continues (with distinct ids it contributes no
output recording), each one with a present blob is carried over with its
`folderId` remapped through the map; the remap sends the sentinel
`"uncategorized"` to itself and an unmapped folder id to
`"uncategorized"`, and otherwise returns the mapped id. -/
theorem migration_spec (oldFolders newFolders : List Folder) (fuel : Nat)
    (m : List (String × String)) (blobs : String → Option Blob)
    (recs : List Recording)
    (hmap : buildFolderIdMap oldFolders newFolders fuel = some m)
    (hnodup : (oldFolders.map Folder.id).Nodup) :
    (∀ of ∈ oldFolders, ∀ nf ∈ newFolders, ∀ p,
      getPath of oldFolders fuel = some p → getPath nf newFolders fuel = some p →
      (∀ g ∈ newFolders, g ≠ nf → getPath g newFolders fuel ≠ some p) →
      nf.id ≠ "" → jsMapGet m of.id = some nf.id) ∧
    (∀ of ∈ oldFolders, ∀ p, getPath of oldFolders fuel = some p →
      (∀ g ∈ newFolders, getPath g newFolders fuel ≠ some p) →
      jsMapGet m of.id = none) ∧
    (∀ rec ∈ recs, blobs rec.id ≠ none →
      ({ rec with folderId := remapFolderId m rec.folderId } : Recording) ∈
        migrateRecordings m blobs recs) ∧
    ((recs.map Recording.id).Nodup → ∀ rec ∈ recs, blobs rec.id = none →
      rec.id ∉ (migrateRecordings m blobs recs).map Recording.id) ∧
    remapFolderId m "uncategorized" = "uncategorized" ∧
    (∀ fid, fid ≠ "uncategorized" → jsMapGet m fid = none →
      remapFolderId m fid = "uncategorized") ∧
    (∀ fid nid, fid ≠ "uncategorized" → jsMapGet m fid = some nid → nid ≠ "" →
      remapFolderId m fid = nid) := by
  obtain ⟨hpos, hneg⟩ := buildFolderIdMap_matches hmap hnodup
  refine ⟨hpos, hneg, migrateRecordings_keeps m blobs recs,
    fun hnd rec hrec hb => migrateRecordings_skips m blobs recs hnd rec hrec hb,
    by simp [remapFolderId], ?_, ?_⟩
  · intro fid hfid hnone
    simp [remapFolderId, hfid, hnone]
  · intro fid nid hfid hsome hne
    simp [remapFolderId, hfid, hsome, hne]

theorem migration_spec_witness :
    buildFolderIdMap [oldRootFolder, oldSubFolder] [newRootFolder, newSubFolder] 3 =
      some [("o1", "n1"), ("o2", "n2")] ∧
    jsMapGet [("o1", "n1"), ("o2", "n2")] "o2" = some "n2" ∧
    ({ migRecKept with folderId := "n2" } : Recording) ∈
      migrateRecordings [("o1", "n1"), ("o2", "n2")] migBlobs
        [migRecKept, migRecLost] ∧
    "r2" ∉ (migrateRecordings [("o1", "n1"), ("o2", "n2")] migBlobs
      [migRecKept, migRecLost]).map Recording.id := by
  have hmap : buildFolderIdMap [oldRootFolder, oldSubFolder]
      [newRootFolder, newSubFolder] 3 = some [("o1", "n1"), ("o2", "n2")] := by decide
  have hspec := migration_spec [oldRootFolder, oldSubFolder]
    [newRootFolder, newSubFolder] 3 [("o1", "n1"), ("o2", "n2")] migBlobs
    [migRecKept, migRecLost] hmap (by decide)
  refine ⟨hmap, ?_, ?_, ?_⟩
  · exact hspec.1 oldSubFolder (by decide) newSubFolder (by decide) "A/B"
      (by decide) (by decide) (by decide) (by decide)
  · exact hspec.2.2.1 migRecKept (by decide) (by decide)
  · exact hspec.2.2.2.1 (by decide) migRecLost (by decide) (by decide)
